import Mathlib

/-! Csv2Qif: a shallow embedding of `Csv2Qif.go`.

Go strings are modelled as lists of runes (`List Char`), i.e. as valid UTF-8
text.  Everything the program does with single bytes (`tmpamount[0]`,
`tmpamount[1:]`) is done on the ASCII byte `-`, so on valid UTF-8 the byte
view and the rune view coincide.

The standard library is not part of the repository.  The functions the
program calls are embedded from their documented behaviour:

* `regexp.FindAllString` for the one pattern the program compiles,
* `strings.Join`, `strings.TrimSpace`, `strings.ReplaceAll`, `strings.ToUpper`,
* `time.Parse` and `Time.Format`, which stay parameters (`GoLib`), as does the
  Unicode upper-case table for the runes above `MaxASCII`.
-/

namespace Csv2Qif

/-- A Go string, read as its sequence of runes. -/
abbrev GoString := List Char

/-! ## `regexp` and `formatAmount` -/

/-- The class `\d` of Go regular expressions: the ASCII digits only. -/
def isDigit (c : Char) : Bool := decide ('0' ≤ c) && decide (c ≤ '9')

/-- The class `[\d,\.]`. -/
def isTail (c : Char) : Bool := isDigit c || c == ',' || c == '.'

/-- The scan of `FindAllString` for the pattern `[-]|\d[\d,\.]*`, reading the
runes from left to right.  The first argument is the match in progress:
`none` when the scan is looking for the start of a match, `some m` when the
second alternative has matched the runes `m` so far and its greedy star is
still extending.  A `-` is a complete match of the first alternative; a digit
starts the second alternative; any other rune is skipped.  Inside a match the
star takes every rune of `[\d,\.]`, and the first rune outside the class ends
the match, the scan restarting on that very rune. -/
def findAllFrom : Option GoString → GoString → List GoString
  | none, [] => []
  | some m, [] => [m]
  | none, c :: cs =>
      if c = '-' then ['-'] :: findAllFrom none cs
      else if isDigit c then findAllFrom (some [c]) cs
      else findAllFrom none cs
  | some m, c :: cs =>
      if isTail c then findAllFrom (some (m ++ [c])) cs
      else if c = '-' then m :: ['-'] :: findAllFrom none cs
      else m :: findAllFrom none cs

/-- Embedding of `re.FindAllString(str, -1)` for
`re = regexp.MustCompile("[-]|\\d[\\d,\\.]*")`: all successive non-overlapping
matches, leftmost first. -/
def FindAllString (str : GoString) : List GoString := findAllFrom none str

/-- Embedding of `strings.Join(elems, sep)`. -/
def Join (elems : List GoString) (sep : GoString) : GoString :=
  List.intercalate sep elems

/-- Embedding of `formatAmount` (Csv2Qif.go, lines 214-220). -/
def formatAmount (str : GoString) : GoString :=
  if str = [] then str
  else Join (FindAllString str) []

/-! ## `strings` -/

/-- Embedding of `unicode.IsSpace`: the Latin-1 white space listed in its
source, and the runes of the Unicode `White_Space` property above Latin-1. -/
def isSpace (c : Char) : Bool :=
  let r := c.toNat
  r == 0x09 || r == 0x0A || r == 0x0B || r == 0x0C || r == 0x0D || r == 0x20 ||
  r == 0x85 || r == 0xA0 || r == 0x1680 || (decide (0x2000 ≤ r) && decide (r ≤ 0x200A)) ||
  r == 0x2028 || r == 0x2029 || r == 0x202F || r == 0x205F || r == 0x3000

/-- Embedding of `strings.TrimSpace`: all leading and trailing white space
removed. -/
def TrimSpace (s : GoString) : GoString :=
  ((s.dropWhile isSpace).reverse.dropWhile isSpace).reverse

/-- The loop of `strings.Replace(s, old, new, -1)` for a non-empty `old`:
the number is how many runes of an occurrence found earlier are still to be
skipped.  Occurrences are found leftmost first and do not overlap. -/
def replaceFrom (old new : GoString) : Nat → GoString → GoString
  | _, [] => []
  | k + 1, _ :: cs => replaceFrom old new k cs
  | 0, c :: cs =>
      if old.isPrefixOf (c :: cs) then new ++ replaceFrom old new (old.length - 1) cs
      else c :: replaceFrom old new 0 cs

/-- Embedding of `strings.ReplaceAll(s, old, new)`.  With an empty `old` Go
inserts `new` before every rune and at the end. -/
def ReplaceAll (s old new : GoString) : GoString :=
  if old = [] then new ++ s.flatMap (fun c => c :: new)
  else replaceFrom old new 0 s

/-- Embedding of `unicode.ToUpper`: the ASCII range is mapped by the
arithmetic in its source, every other rune by the Unicode case table `tbl`
(`unicode.To(unicode.UpperCase, r)`). -/
def toUpperRune (tbl : Char → Char) (r : Char) : Char :=
  if r.toNat ≤ 0x7F then
    (if 'a' ≤ r ∧ r ≤ 'z' then Char.ofNat (r.toNat - ('a'.toNat - 'A'.toNat)) else r)
  else tbl r

/-- Embedding of `strings.ToUpper` on valid UTF-8. -/
def ToUpper (tbl : Char → Char) (s : GoString) : GoString :=
  s.map (toUpperRune tbl)

/-- Embedding of `getDateLayout` (Csv2Qif.go, lines 196-211). -/
def getDateLayout (tbl : Char → Char) (dtfmt : GoString) : GoString :=
  if dtfmt = [] then dtfmt
  else
    let res := ToUpper tbl dtfmt
    let res := ReplaceAll res "DD".toList "02".toList
    let res := ReplaceAll res "D".toList "2".toList
    let res := ReplaceAll res "MMMM".toList "January".toList
    let res := ReplaceAll res "MMM".toList "Jan".toList
    let res := ReplaceAll res "MM".toList "01".toList
    let res := ReplaceAll res "M".toList "1".toList
    let res := ReplaceAll res "YYYY".toList "2006".toList
    let res := ReplaceAll res "YY".toList "06".toList
    let res := ReplaceAll res "Y".toList "06".toList
    res

/-! ## Configuration -/

/-- Embedding of `type Config struct` (Csv2Qif.go, lines 21-40). -/
structure Config where
  CsvHasHeader : Bool
  CsvColumnDate : Int
  CsvColumnAmount : Int
  CsvColumnMemo : Int
  CsvColumnPayee : Int
  CsvColumnCategory : Int
  CsvColumnAddress : Int
  CsvColumnRefNumber : Int
  CsvColumnCleared : Int
  CsvColumnReimburseFlag : Int
  CsvColumnSplitCategory : Int
  CsvColumnSplitMemo : Int
  CsvColumnSplitAmount : Int
  CsvColumnSplitPercentage : Int
  CsvDateFormat : GoString
  CsvReverseAmountSign : Bool
  QifAccountType : GoString
  QifDateFormat : GoString

/-- Embedding of `func (c *Config) init()` (Csv2Qif.go, lines 42-56). -/
def Config.init (c : Config) : Config :=
  { c with
    CsvColumnDate := -1
    CsvColumnAmount := -1
    CsvColumnMemo := -1
    CsvColumnPayee := -1
    CsvColumnCategory := -1
    CsvColumnAddress := -1
    CsvColumnRefNumber := -1
    CsvColumnCleared := -1
    CsvColumnReimburseFlag := -1
    CsvColumnSplitCategory := -1
    CsvColumnSplitMemo := -1
    CsvColumnSplitAmount := -1
    CsvColumnSplitPercentage := -1 }

/-- The parts of the Go standard library that stay parameters: the Unicode
upper-case table above ASCII, and package `time` (`time.Parse` returns `none`
for a parse error). -/
structure GoLib where
  upperTable : Char → Char
  Time : Type
  timeParse : GoString → GoString → Option Time
  timeFormat : Time → GoString → GoString

/-! ## The body of the row loop

A run-time panic (index out of range) is the value `none`. -/

/-- Go's index expression `row[i]`: it panics outside `0 <= i < len(row)`. -/
def index (row : List GoString) (i : Int) : Option GoString :=
  if 0 ≤ i ∧ i < (row.length : Int) then row[i.toNat]? else none

/-- The guard `col >= 0 && col < len(row) && row[col] != ""` with the
short-circuit evaluation of `&&`: the row is read only when the first two
tests succeed. -/
def columnHasData (row : List GoString) (col : Int) : Option Bool :=
  if col ≥ 0 then
    if col < (row.length : Int) then
      match index row col with
      | some v => some (v != [])
      | none => none
    else some false
  else some false

/-- What one iteration of the row loop has done so far: the lines it has
written with `fmt.Fprintln(out, ...)`, oldest first, and the local variable
`hasdata`. -/
structure RowState where
  out : List GoString
  hasdata : Bool

/-- The statement `if tmpamount[0] == '-' { tmpamount = tmpamount[1:] } else
{ tmpamount = "-" + tmpamount }` (lines 127-131); `tmpamount[0]` panics on the
empty string. -/
def flipSign : GoString → Option GoString
  | [] => none
  | c :: rest => if c = '-' then some rest else some ('-' :: c :: rest)

/-- The sign-reversal step `if conf.CsvReverseAmountSign && tmpamount != ""
{ ... }` (lines 126-132 and 174-180), returning the new `tmpamount`. -/
def reverseAmountSign (reverse : Bool) (tmpamount : GoString) : Option GoString :=
  if reverse && tmpamount != [] then flipSign tmpamount else some tmpamount

/-- The Date field (lines 111-123). -/
def dateField (L : GoLib) (conf : Config) (row : List GoString) (st : RowState) :
    Option RowState :=
  match columnHasData row conf.CsvColumnDate with
  | none => none
  | some false => some st
  | some true =>
    match index row conf.CsvColumnDate with
    | none => none
    | some tmpdatestr =>
      let tmpdatestr :=
        if conf.CsvDateFormat ≠ [] ∧ conf.QifDateFormat ≠ [] then
          match L.timeParse (getDateLayout L.upperTable conf.CsvDateFormat) tmpdatestr with
          | none => tmpdatestr
          | some tmpdate => L.timeFormat tmpdate (getDateLayout L.upperTable conf.QifDateFormat)
        else tmpdatestr
      some { out := st.out ++ ['D' :: tmpdatestr], hasdata := true }

/-- The Amount field (lines 124-135) with `code = 'T'`, and the SplitAmount
field (lines 172-183) with `code = '$'`. -/
def amountField (code : Char) (col : Int) (conf : Config) (row : List GoString)
    (st : RowState) : Option RowState :=
  match columnHasData row col with
  | none => none
  | some false => some st
  | some true =>
    match index row col with
    | none => none
    | some v =>
      match reverseAmountSign conf.CsvReverseAmountSign (formatAmount (TrimSpace v)) with
      | none => none
      | some tmpamount => some { out := st.out ++ [code :: tmpamount], hasdata := true }

/-- One of the nine fields whose cell is written as it is (lines 136-171 and
184-187). -/
def plainField (code : Char) (col : Int) (row : List GoString) (st : RowState) :
    Option RowState :=
  match columnHasData row col with
  | none => none
  | some false => some st
  | some true =>
    match index row col with
    | none => none
    | some v => some { out := st.out ++ [code :: v], hasdata := true }

/-- The body of the row loop after the header test (lines 110-190): the lines
written for one row. -/
def mapRow (L : GoLib) (conf : Config) (row : List GoString) : Option (List GoString) :=
  (((((((((((((dateField L conf row { out := [], hasdata := false }).bind
    (amountField 'T' conf.CsvColumnAmount conf row)).bind
    (plainField 'M' conf.CsvColumnMemo row)).bind
    (plainField 'P' conf.CsvColumnPayee row)).bind
    (plainField 'L' conf.CsvColumnCategory row)).bind
    (plainField 'A' conf.CsvColumnAddress row)).bind
    (plainField 'N' conf.CsvColumnRefNumber row)).bind
    (plainField 'C' conf.CsvColumnCleared row)).bind
    (plainField 'F' conf.CsvColumnReimburseFlag row)).bind
    (plainField 'S' conf.CsvColumnSplitCategory row)).bind
    (plainField 'E' conf.CsvColumnSplitMemo row)).bind
    (amountField '$' conf.CsvColumnSplitAmount conf row)).bind
    (plainField '%' conf.CsvColumnSplitPercentage row)).map
    (fun st => if st.hasdata then st.out ++ [['^']] else st.out)

/-! ## The driver -/

/-- The row loop of `convertCsv2Qif` (lines 97-191) over the rows that
`reader.Read()` returns before `io.EOF`: `lineno` is the counter of the
source and `out` the lines written to the QIF file so far. -/
def processRows (L : GoLib) (conf : Config) :
    Nat → List (List GoString) → List GoString → Option (List GoString)
  | _, [], out => some out
  | lineno, row :: rest, out =>
    let lineno := lineno + 1
    if conf.CsvHasHeader && lineno == 1 then processRows L conf lineno rest out
    else
      match mapRow L conf row with
      | none => none
      | some lines => processRows L conf lineno rest (out ++ lines)

/-- Embedding of `convertCsv2Qif` (lines 74-193) for a configuration that is
not nil and two files that open: the lines written to the QIF file, given the
rows of the CSV file. -/
def convertCsv2Qif (L : GoLib) (rows : List (List GoString)) (conf : Config) :
    Option (List GoString) :=
  let out : List GoString :=
    if conf.QifAccountType ≠ [] then ["!Type:".toList ++ conf.QifAccountType]
    else ["!Type:Bank".toList]
  processRows L conf 0 rows out

/-- A library instance for evaluating examples: no rune above ASCII has an
upper-case form and no date parses. -/
def GoLib.plain : GoLib where
  upperTable := id
  Time := Unit
  timeParse := fun _ _ => none
  timeFormat := fun _ layout => layout

/-- A configuration with every column absent; examples override fields. -/
def Config.blank : Config :=
  Config.init
    { CsvHasHeader := false, CsvColumnDate := 0, CsvColumnAmount := 0, CsvColumnMemo := 0,
      CsvColumnPayee := 0, CsvColumnCategory := 0, CsvColumnAddress := 0,
      CsvColumnRefNumber := 0, CsvColumnCleared := 0, CsvColumnReimburseFlag := 0,
      CsvColumnSplitCategory := 0, CsvColumnSplitMemo := 0, CsvColumnSplitAmount := 0,
      CsvColumnSplitPercentage := 0, CsvDateFormat := [], CsvReverseAmountSign := false,
      QifAccountType := [], QifDateFormat := [] }

/-! ## Auxiliary notions used in the statements -/

/-- The separators `,` and `.`. -/
def isSep (c : Char) : Bool := c == ',' || c == '.'

/-- The concatenation of the matches as one left-to-right pass: the flag says
whether the scan is inside a match of `\d[\d,\.]*`. -/
def keep : Bool → GoString → GoString
  | _, [] => []
  | false, c :: cs =>
      if c = '-' then '-' :: keep false cs
      else if isDigit c then c :: keep true cs
      else keep false cs
  | true, c :: cs =>
      if isTail c then c :: keep true cs
      else if c = '-' then '-' :: keep false cs
      else keep false cs

/-- The runes `pre` read so far end in an unbroken run of digits, commas and
periods that contains a digit. -/
def afterDigitRun (pre : GoString) : Bool :=
  (pre.reverse.takeWhile isTail).any isDigit

/-- The commas and periods of a string that stand after such a run; `pre` is
the text before the string. -/
def separatorsAfterDigit (pre : GoString) : GoString → GoString
  | [] => []
  | c :: cs =>
      if isSep c && afterDigitRun pre then c :: separatorsAfterDigit (pre ++ [c]) cs
      else separatorsAfterDigit (pre ++ [c]) cs

/-- A field is populated in a row when its column index lies inside the row
and the cell there is not the empty string. -/
def populated (row : List GoString) (col : Int) : Prop :=
  0 ≤ col ∧ col < (row.length : Int) ∧ index row col ≠ some []

instance (row : List GoString) (col : Int) : Decidable (populated row col) := by
  unfold populated; infer_instance

/-- The thirteen column indices of a configuration, in the order in which the
row loop tests them. -/
def columns (conf : Config) : List Int :=
  [conf.CsvColumnDate, conf.CsvColumnAmount, conf.CsvColumnMemo, conf.CsvColumnPayee,
   conf.CsvColumnCategory, conf.CsvColumnAddress, conf.CsvColumnRefNumber,
   conf.CsvColumnCleared, conf.CsvColumnReimburseFlag, conf.CsvColumnSplitCategory,
   conf.CsvColumnSplitMemo, conf.CsvColumnSplitAmount, conf.CsvColumnSplitPercentage]

/-- The field codes in the order of the row loop. -/
def fieldCodes : List Char := "DTMPLANCFSE$%".toList

/-- A row state after some more lines were written. -/
def RowState.push (st : RowState) (lines : List GoString) : RowState :=
  { out := st.out ++ lines, hasdata := st.hasdata || !lines.isEmpty }

/-- The line of a field written as it is, if any. -/
def plainLines (code : Char) (col : Int) (row : List GoString) : List GoString :=
  match index row col with
  | some v => if v = [] then [] else [code :: v]
  | none => []

/-- The text written after `D` for a non-empty date cell. -/
def dateText (L : GoLib) (conf : Config) (v : GoString) : GoString :=
  if conf.CsvDateFormat ≠ [] ∧ conf.QifDateFormat ≠ [] then
    match L.timeParse (getDateLayout L.upperTable conf.CsvDateFormat) v with
    | none => v
    | some tmpdate => L.timeFormat tmpdate (getDateLayout L.upperTable conf.QifDateFormat)
  else v

/-- The line of the Date field, if any. -/
def dateLines (L : GoLib) (conf : Config) (row : List GoString) : List GoString :=
  match index row conf.CsvColumnDate with
  | some v => if v = [] then [] else ['D' :: dateText L conf v]
  | none => []

/-- The amount after the sign-reversal step. -/
def signReversed (reverse : Bool) (tmpamount : GoString) : GoString :=
  (reverseAmountSign reverse tmpamount).getD tmpamount

/-- The line of an amount field, if any. -/
def amountLines (code : Char) (col : Int) (conf : Config) (row : List GoString) :
    List GoString :=
  match index row col with
  | some v =>
      if v = [] then []
      else [code :: signReversed conf.CsvReverseAmountSign (formatAmount (TrimSpace v))]
  | none => []

/-- The field lines of a row, before the separator line. -/
def fieldLines (L : GoLib) (conf : Config) (row : List GoString) : List GoString :=
  dateLines L conf row
    ++ amountLines 'T' conf.CsvColumnAmount conf row
    ++ plainLines 'M' conf.CsvColumnMemo row
    ++ plainLines 'P' conf.CsvColumnPayee row
    ++ plainLines 'L' conf.CsvColumnCategory row
    ++ plainLines 'A' conf.CsvColumnAddress row
    ++ plainLines 'N' conf.CsvColumnRefNumber row
    ++ plainLines 'C' conf.CsvColumnCleared row
    ++ plainLines 'F' conf.CsvColumnReimburseFlag row
    ++ plainLines 'S' conf.CsvColumnSplitCategory row
    ++ plainLines 'E' conf.CsvColumnSplitMemo row
    ++ amountLines '$' conf.CsvColumnSplitAmount conf row
    ++ plainLines '%' conf.CsvColumnSplitPercentage row

/-- The record of a row: its field lines and the separator line, or nothing. -/
def recordLines (L : GoLib) (conf : Config) (row : List GoString) : List GoString :=
  if fieldLines L conf row = [] then [] else fieldLines L conf row ++ [['^']]

/-- One entry of the Unicode upper-case table, every other rune left alone:
U+24D0 CIRCLED LATIN SMALL LETTER A, whose general category is So (a symbol,
not a letter), has the upper-case form U+24B6. -/
def circledUpperTable : Char → Char :=
  fun c => if c = Char.ofNat 0x24D0 then Char.ofNat 0x24B6 else c

/-- A rune that the date translation reads as one of its letters: its
upper-case form is `D`, `M` or `Y`. -/
def dateLetter (tbl : Char → Char) (c : Char) : Bool :=
  toUpperRune tbl c == 'D' || toUpperRune tbl c == 'M' || toUpperRune tbl c == 'Y'

/-- The lines of an output that begin with a given field code. -/
def linesWithCode (code : Char) (lines : List GoString) : List GoString :=
  lines.filter (fun l => l.head? == some code)

/-- The text that `fmt.Fprintln(out, item)` writes for a list of items: each
item followed by a newline. -/
def rowText (items : List GoString) : GoString :=
  items.flatMap (fun item => item ++ ['\n'])

/-- The newline-terminated lines of a text; `cur` is the line being read. -/
def textLinesFrom (cur : GoString) : GoString → List GoString
  | [] => []
  | c :: cs => if c = '\n' then cur :: textLinesFrom [] cs else textLinesFrom (cur ++ [c]) cs

/-- The newline-terminated lines of a text. -/
def textLines (text : GoString) : List GoString := textLinesFrom [] text

/-- The number of populated fields of a row: the fields, among the thirteen,
whose column is populated. -/
def populatedCount (conf : Config) (row : List GoString) : Nat :=
  (columns conf).countP (fun col => decide (populated row col))

/-- The thirteen fields of a configuration: code and column index. -/
def fieldTable (conf : Config) : List (Char × Int) :=
  fieldCodes.zip (columns conf)

/-! ## Lemmas on `formatAmount` -/

theorem isDigit_ne_minus {c : Char} (h : isDigit c = true) : c ≠ '-' := by
  rintro rfl; exact absurd h (by decide)

theorem isDigit_not_sep {c : Char} (h : isDigit c = true) : isSep c = false := by
  unfold isSep
  have h1 : c ≠ ',' := by rintro rfl; exact absurd h (by decide)
  have h2 : c ≠ '.' := by rintro rfl; exact absurd h (by decide)
  simp [h1, h2]

theorem isTail_eq (c : Char) : isTail c = (isDigit c || isSep c) := by
  simp [isTail, isSep, Bool.or_assoc]

theorem isTail_ne_minus {c : Char} (h : isTail c = true) : c ≠ '-' := by
  rintro rfl; exact absurd h (by decide)

theorem intercalate_nil_eq {α : Type} (l : List (List α)) :
    List.intercalate [] l = l.flatten := by
  unfold List.intercalate
  induction l with
  | nil => rfl
  | cons a t ih =>
    cases t with
    | nil => simp [List.intersperse]
    | cons b t2 =>
      simp only [List.intersperse, List.flatten_cons, List.nil_append] at ih ⊢
      rw [ih]

theorem flatten_findAllFrom (m s : GoString) :
    (findAllFrom (some m) s).flatten = m ++ keep true s
    ∧ (findAllFrom none s).flatten = keep false s := by
  induction s generalizing m with
  | nil => simp [findAllFrom, keep]
  | cons c cs ih =>
    constructor
    · by_cases ht : isTail c = true
      · simp [findAllFrom, keep, ht, (ih (m ++ [c])).1]
      · by_cases hm : c = '-'
        · subst hm
          have h0 : isTail '-' = false := by decide
          simp [findAllFrom, keep, h0, (ih []).2]
        · simp [findAllFrom, keep, ht, hm, (ih []).2]
    · by_cases hm : c = '-'
      · simp [findAllFrom, keep, hm, (ih []).2]
      · by_cases hd : isDigit c = true
        · simp [findAllFrom, keep, hm, hd, (ih [c]).1]
        · simp [findAllFrom, keep, hm, hd, (ih []).2]

theorem formatAmount_eq_keep (s : GoString) : formatAmount s = keep false s := by
  unfold formatAmount
  split
  · next h => subst h; rfl
  · simp [Join, FindAllString, intercalate_nil_eq, (flatten_findAllFrom [] s).2]

/-- Inside a match the greedy star takes the longest run of `[\d,\.]`, and
the scan goes on after it. -/
theorem findAllFrom_some (m s : GoString) :
    findAllFrom (some m) s
      = (m ++ s.takeWhile isTail) :: findAllFrom none (s.dropWhile isTail) := by
  induction s generalizing m with
  | nil => simp [findAllFrom]
  | cons c cs ih =>
    by_cases ht : isTail c = true
    · simp [findAllFrom, ht, ih (m ++ [c]), List.takeWhile_cons, List.dropWhile_cons]
    · have hd : isDigit c = false := by
        cases hd : isDigit c
        · rfl
        · exact absurd (by simp [isTail, hd]) ht
      by_cases hm : c = '-'
      · subst hm
        simp [findAllFrom, ht, List.takeWhile_cons, List.dropWhile_cons]
      · simp [findAllFrom, ht, hm, hd, List.takeWhile_cons, List.dropWhile_cons]

/-- The scan, unfolded one match at a time: the leftmost match, the longest
one at its position, then the matches of the text after it. -/
theorem FindAllString_cons (c : Char) (cs : GoString) :
    FindAllString (c :: cs) =
      if c = '-' then ['-'] :: FindAllString cs
      else if isDigit c then
        (c :: cs.takeWhile isTail) :: FindAllString (cs.dropWhile isTail)
      else FindAllString cs := by
  unfold FindAllString
  by_cases hm : c = '-'
  · simp [findAllFrom, hm]
  · by_cases hd : isDigit c = true
    · simp [findAllFrom, hm, hd, findAllFrom_some]
    · simp [findAllFrom, hm, hd]

theorem keep_true_of_start {c : Char} (r : GoString) (h : c = '-' ∨ isDigit c = true) :
    keep true (c :: r) = keep false (c :: r) := by
  rcases h with h | h
  · subst h
    have h0 : isTail '-' = false := by decide
    simp [keep, h0]
  · have ht : isTail c = true := by simp [isTail, h]
    simp [keep, ht, h, isDigit_ne_minus h]

theorem keep_false_start (s : GoString) :
    keep false s = [] ∨ ∃ c r, keep false s = c :: r ∧ (c = '-' ∨ isDigit c = true) := by
  induction s with
  | nil => left; rfl
  | cons c cs ih =>
    by_cases hm : c = '-'
    · right; exact ⟨'-', keep false cs, by simp [keep, hm], Or.inl rfl⟩
    · by_cases hd : isDigit c = true
      · right; exact ⟨c, keep true cs, by simp [keep, hm, hd], Or.inr hd⟩
      · simpa [keep, hm, hd] using ih

theorem keep_true_keep_false (s : GoString) :
    keep true (keep false s) = keep false (keep false s) := by
  rcases keep_false_start s with h | ⟨c, r, h, hc⟩
  · rw [h]; rfl
  · rw [h]; exact keep_true_of_start r hc

theorem keep_idem (b : Bool) (s : GoString) : keep b (keep b s) = keep b s := by
  induction s generalizing b with
  | nil => cases b <;> rfl
  | cons c cs ih =>
    cases b with
    | false =>
      by_cases hm : c = '-'
      · subst hm; simp [keep, ih false]
      · by_cases hd : isDigit c = true
        · simp [keep, hm, hd, ih true]
        · simp [keep, hm, hd, ih false]
    | true =>
      by_cases ht : isTail c = true
      · simp [keep, ht, ih true]
      · by_cases hm : c = '-'
        · subst hm
          have h0 : isTail '-' = false := by decide
          simp [keep, h0, ih false]
        · simp [keep, ht, hm, keep_true_keep_false, ih false]

theorem keep_filter (b : Bool) (s : GoString) :
    (keep b s).filter (fun c => !isSep c) = s.filter (fun c => isDigit c || c == '-') := by
  induction s generalizing b with
  | nil => cases b <;> rfl
  | cons c cs ih =>
    have hs0 : isSep '-' = false := by decide
    have hd0 : isDigit '-' = false := by decide
    have ht0 : isTail '-' = false := by decide
    by_cases hm : c = '-'
    · subst hm
      cases b <;> simp [keep, hs0, hd0, ht0, ih false]
    · by_cases hd : isDigit c = true
      · have ht : isTail c = true := by simp [isTail, hd]
        cases b <;> simp [keep, hm, hd, ht, isDigit_not_sep hd, ih true]
      · cases b with
        | false => simp [keep, hm, hd, ih false]
        | true =>
          by_cases hsep : isSep c = true
          · have ht : isTail c = true := by simp [isTail_eq, hsep]
            simp [keep, hm, hd, ht, hsep, ih true]
          · have ht : isTail c = false := by simp [isTail_eq, hd, hsep]
            simp [keep, hm, hd, ht, ih false]

theorem keep_mem (b : Bool) (s : GoString) :
    ∀ c ∈ keep b s, isDigit c = true ∨ c = ',' ∨ c = '.' ∨ c = '-' := by
  induction s generalizing b with
  | nil => cases b <;> simp [keep]
  | cons a cs ih =>
    have hsplit : ∀ d ∈ keep b (a :: cs),
        (d = a ∧ (a = '-' ∨ isTail a = true)) ∨ d ∈ keep false cs ∨ d ∈ keep true cs := by
      intro d hd
      cases b with
      | false =>
        by_cases hm : a = '-'
        · subst hm
          simp only [keep, if_true, List.mem_cons] at hd
          rcases hd with hd | hd
          · exact Or.inl ⟨hd, Or.inl rfl⟩
          · exact Or.inr (Or.inl hd)
        · by_cases hdg : isDigit a = true
          · simp only [keep, hm, hdg, if_true, if_false, List.mem_cons] at hd
            rcases hd with hd | hd
            · exact Or.inl ⟨hd, Or.inr (by simp [isTail, hdg])⟩
            · exact Or.inr (Or.inr hd)
          · simp only [keep, hm, hdg, if_false] at hd
            exact Or.inr (Or.inl hd)
      | true =>
        by_cases ht : isTail a = true
        · simp only [keep, ht, if_true, List.mem_cons] at hd
          rcases hd with hd | hd
          · exact Or.inl ⟨hd, Or.inr ht⟩
          · exact Or.inr (Or.inr hd)
        · by_cases hm : a = '-'
          · subst hm
            have h0 : isTail '-' = false := by decide
            simp [keep, h0] at hd
            rcases hd with hd | hd
            · exact Or.inl ⟨hd, Or.inl rfl⟩
            · exact Or.inr (Or.inl hd)
          · simp only [keep, ht, hm, if_false] at hd
            exact Or.inr (Or.inl hd)
    intro d hd
    rcases hsplit d hd with ⟨rfl, h | h⟩ | h | h
    · exact Or.inr (Or.inr (Or.inr h))
    · simp only [isTail, Bool.or_eq_true, beq_iff_eq] at h
      rcases h with (h | h) | h
      · exact Or.inl h
      · exact Or.inr (Or.inl h)
      · exact Or.inr (Or.inr (Or.inl h))
    · exact ih false d h
    · exact ih true d h

theorem afterDigitRun_snoc (pre : GoString) (c : Char) :
    afterDigitRun (pre ++ [c]) = (isTail c && (isDigit c || afterDigitRun pre)) := by
  unfold afterDigitRun
  by_cases ht : isTail c = true
  · simp [List.takeWhile_cons, ht]
  · simp [List.takeWhile_cons, ht]

theorem keep_separators (pre s : GoString) :
    (keep (afterDigitRun pre) s).filter isSep = separatorsAfterDigit pre s := by
  induction s generalizing pre with
  | nil => cases afterDigitRun pre <;> rfl
  | cons c cs ih =>
    have hs0 : isSep '-' = false := by decide
    have hd0 : isDigit '-' = false := by decide
    have ht0 : isTail '-' = false := by decide
    have hnext := afterDigitRun_snoc pre c
    have ih2 := ih (pre ++ [c])
    by_cases hm : c = '-'
    · subst hm
      rw [hnext] at ih2
      cases hb : afterDigitRun pre <;>
        simp [keep, separatorsAfterDigit, hs0, hd0, ht0, hb] at ih2 ⊢ <;> exact ih2
    · by_cases hd : isDigit c = true
      · have ht : isTail c = true := by simp [isTail, hd]
        rw [hnext] at ih2
        cases hb : afterDigitRun pre <;>
          simp [keep, separatorsAfterDigit, hm, hd, ht, isDigit_not_sep hd, hb] at ih2 ⊢ <;>
          exact ih2
      · by_cases hsep : isSep c = true
        · have ht : isTail c = true := by simp [isTail_eq, hsep]
          rw [hnext] at ih2
          cases hb : afterDigitRun pre <;>
            simp [keep, separatorsAfterDigit, hm, hd, ht, hsep, hb] at ih2 ⊢ <;>
            exact ih2
        · have ht : isTail c = false := by simp [isTail_eq, hd, hsep]
          rw [hnext] at ih2
          cases hb : afterDigitRun pre <;>
            simp [keep, separatorsAfterDigit, hm, hd, ht, hsep, hb] at ih2 ⊢ <;>
            exact ih2

theorem separatorsAfterDigit_sublist (pre s : GoString) :
    List.Sublist (separatorsAfterDigit pre s) (s.filter isSep) := by
  induction s generalizing pre with
  | nil => simp [separatorsAfterDigit]
  | cons c cs ih =>
    by_cases hsep : isSep c = true
    · by_cases hb : afterDigitRun pre = true
      · simpa [separatorsAfterDigit, hsep, hb] using ih (pre ++ [c])
      · simpa [separatorsAfterDigit, hsep, hb] using (ih (pre ++ [c])).trans (List.sublist_cons_self _ _)
    · simpa [separatorsAfterDigit, hsep] using ih (pre ++ [c])

theorem reverseAmountSign_twice (s : GoString) :
    (reverseAmountSign true s).bind (reverseAmountSign true) = some s
      ↔ s ≠ ['-'] ∧ ¬ (['-', '-'] <+: s) := by
  match s with
  | [] => simp [reverseAmountSign]
  | [c] =>
    by_cases hc : c = '-'
    · subst hc
      simp [reverseAmountSign, flipSign]
    · have hc2 : ¬ '-' = c := fun h => hc h.symm
      simp [reverseAmountSign, flipSign, hc, hc2, List.cons_prefix_cons]
  | c :: d :: u =>
    by_cases hc : c = '-'
    · subst hc
      by_cases hd : d = '-'
      · subst hd
        have hlen : ¬ (u = '-' :: '-' :: u) := fun h => by
          have := congrArg List.length h
          simp at this
          omega
        simp [reverseAmountSign, flipSign, List.cons_prefix_cons, hlen]
      · have hd2 : ¬ '-' = d := fun h => hd h.symm
        simp [reverseAmountSign, flipSign, hd, hd2, List.cons_prefix_cons]
    · have hc2 : ¬ '-' = c := fun h => hc h.symm
      simp [reverseAmountSign, flipSign, hc, hc2, List.cons_prefix_cons]

/-! ## The claims on `formatAmount` and on sign reversal -/

/-- C1. Amount normalisation is idempotent: `formatAmount (formatAmount x)`
is `formatAmount x` for every string `x`. -/
theorem formatAmount_idempotent (x : GoString) :
    formatAmount (formatAmount x) = formatAmount x := by
  rw [formatAmount_eq_keep (formatAmount x), formatAmount_eq_keep x]
  exact keep_idem false x

/-- C2, as stated, fails: `--5` is its own normal form, one sign reversal gives
`-5` and the second gives `5`. -/
theorem reverseAmountSign_twice_counterexample :
    formatAmount "--5".toList = "--5".toList
    ∧ reverseAmountSign true (formatAmount "--5".toList) = some "-5".toList
    ∧ (reverseAmountSign true (formatAmount "--5".toList)).bind (reverseAmountSign true)
        = some "5".toList
    ∧ (reverseAmountSign true (formatAmount "--5".toList)).bind (reverseAmountSign true)
        ≠ some (formatAmount "--5".toList) := by
  decide

/-- C2, amended. On a normalised amount `s = formatAmount raw` the
sign-reversal step never fails, and applying it twice gives back `s` exactly
when `s` is not the lone sign `-` and does not begin with `--`. -/
theorem reverseAmountSign_twice_iff (raw : GoString) :
    (∃ t, reverseAmountSign true (formatAmount raw) = some t
        ∧ ∃ u, reverseAmountSign true t = some u)
    ∧ ((reverseAmountSign true (formatAmount raw)).bind (reverseAmountSign true)
          = some (formatAmount raw)
        ↔ formatAmount raw ≠ "-".toList ∧ ¬ ("--".toList <+: formatAmount raw)) := by
  refine ⟨?_, reverseAmountSign_twice (formatAmount raw)⟩
  have total : ∀ s : GoString, ∃ t, reverseAmountSign true s = some t := by
    intro s
    match s with
    | [] => exact ⟨[], by simp [reverseAmountSign]⟩
    | c :: r =>
      by_cases hc : c = '-'
      · exact ⟨r, by simp [reverseAmountSign, flipSign, hc]⟩
      · exact ⟨'-' :: c :: r, by simp [reverseAmountSign, flipSign, hc]⟩
  obtain ⟨t, ht⟩ := total (formatAmount raw)
  exact ⟨t, ht, total t⟩

/-- C8, as stated, fails: the period of the currency abbreviation in
`Rs. 1,500.00` follows no digit, so it is in no match and `formatAmount` drops
it, while the comma and the period of the numeral are kept. -/
theorem formatAmount_separators_counterexample :
    formatAmount "Rs. 1,500.00".toList = "1,500.00".toList
    ∧ (formatAmount "Rs. 1,500.00".toList).filter isSep = ",.".toList
    ∧ ("Rs. 1,500.00".toList).filter isSep = ".,.".toList
    ∧ (formatAmount "Rs. 1,500.00".toList).filter isSep
        ≠ ("Rs. 1,500.00".toList).filter isSep := by
  decide

/-- C8, amended. `formatAmount` keeps a comma or period of `raw` exactly when
the unbroken run of digits, commas and periods right before it contains a
digit: the commas and periods of `formatAmount raw` are those commas and
periods of `raw`, in order, and so a subsequence of the commas and periods of
`raw`. -/
theorem formatAmount_separators (raw : GoString) :
    (formatAmount raw).filter isSep = separatorsAfterDigit [] raw
    ∧ List.Sublist ((formatAmount raw).filter isSep) (raw.filter isSep) := by
  have h : (formatAmount raw).filter isSep = separatorsAfterDigit [] raw := by
    rw [formatAmount_eq_keep]
    exact keep_separators [] raw
  exact ⟨h, h ▸ separatorsAfterDigit_sublist [] raw⟩

/-- C9. `formatAmount raw` contains only ASCII digits, `,`, `.` and `-`, and
deleting its commas and periods leaves exactly the digits and minus signs of
`raw`, in their order. -/
theorem formatAmount_digits_and_minus (raw : GoString) :
    (∀ c ∈ formatAmount raw, isDigit c = true ∨ c = ',' ∨ c = '.' ∨ c = '-')
    ∧ (formatAmount raw).filter (fun c => !(c == ',' || c == '.'))
        = raw.filter (fun c => isDigit c || c == '-') := by
  rw [formatAmount_eq_keep]
  exact ⟨keep_mem false raw, keep_filter false raw⟩

/-! ## Lemmas on the row loop -/

theorem index_in_range {row : List GoString} {col : Int}
    (h0 : 0 ≤ col) (h1 : col < (row.length : Int)) :
    ∃ v, index row col = some v := by
  have hlt : col.toNat < row.length := by omega
  exact ⟨row[col.toNat], by simp [index, h0, h1, List.getElem?_eq_getElem hlt]⟩

theorem index_out_of_range {row : List GoString} {col : Int}
    (h : ¬ (0 ≤ col ∧ col < (row.length : Int))) : index row col = none := by
  simp [index, h]

theorem columnHasData_eq (row : List GoString) (col : Int) :
    columnHasData row col
      = some (match index row col with
              | some v => v != []
              | none => false) := by
  by_cases h : 0 ≤ col ∧ col < (row.length : Int)
  · obtain ⟨v, hv⟩ := index_in_range h.1 h.2
    simp [columnHasData, h.1, h.2, hv]
  · rw [index_out_of_range h]
    unfold columnHasData
    by_cases h0 : col ≥ 0
    · have h1 : ¬ col < (row.length : Int) := fun h1 => h ⟨h0, h1⟩
      simp [h0, h1]
    · simp [h0]

theorem plainField_eq (code : Char) (col : Int) (row : List GoString) (st : RowState) :
    plainField code col row st = some (st.push (plainLines code col row)) := by
  unfold plainField plainLines
  rw [columnHasData_eq]
  cases hv : index row col with
  | none => simp [RowState.push]
  | some v =>
    by_cases hne : v = []
    · simp [hne, RowState.push]
    · have hb : (v != []) = true := by simp [hne]
      simp [hne, hb, RowState.push]

theorem dateField_eq (L : GoLib) (conf : Config) (row : List GoString) (st : RowState) :
    dateField L conf row st = some (st.push (dateLines L conf row)) := by
  unfold dateField dateLines
  rw [columnHasData_eq]
  cases hv : index row conf.CsvColumnDate with
  | none => simp [RowState.push]
  | some v =>
    by_cases hne : v = []
    · simp [hne, RowState.push]
    · have hb : (v != []) = true := by simp [hne]
      simp [hne, hb, RowState.push, dateText]

theorem reverseAmountSign_eq (reverse : Bool) (s : GoString) :
    reverseAmountSign reverse s = some (signReversed reverse s) := by
  unfold signReversed reverseAmountSign
  split
  · match s with
    | [] => simp_all
    | c :: r =>
      by_cases hc : c = '-'
      · simp [flipSign, hc]
      · simp [flipSign, hc]
  · rfl

theorem amountField_eq (code : Char) (col : Int) (conf : Config) (row : List GoString)
    (st : RowState) :
    amountField code col conf row st = some (st.push (amountLines code col conf row)) := by
  unfold amountField amountLines
  rw [columnHasData_eq]
  cases hv : index row col with
  | none => simp [RowState.push]
  | some v =>
    by_cases hne : v = []
    · simp [hne, RowState.push]
    · have hb : (v != []) = true := by simp [hne]
      simp [hne, hb, RowState.push, reverseAmountSign_eq]

theorem push_push (st : RowState) (a b : List GoString) :
    (st.push a).push b = st.push (a ++ b) := by
  cases a <;> cases b <;> simp [RowState.push]

/-- The row loop never panics, and writes the record of the row. -/
theorem mapRow_eq (L : GoLib) (conf : Config) (row : List GoString) :
    mapRow L conf row = some (recordLines L conf row) := by
  unfold mapRow
  simp only [dateField_eq, amountField_eq, plainField_eq, Option.some_bind, push_push,
    Option.map_some']
  change some (if (RowState.push { out := [], hasdata := false }
      (fieldLines L conf row)).hasdata then
        (RowState.push { out := [], hasdata := false } (fieldLines L conf row)).out ++ [['^']]
      else (RowState.push { out := [], hasdata := false } (fieldLines L conf row)).out) = _
  unfold recordLines
  cases fieldLines L conf row with
  | nil => simp [RowState.push]
  | cons a t => simp [RowState.push]

theorem populated_iff (row : List GoString) (col : Int) :
    populated row col ↔ ∃ v, index row col = some v ∧ v ≠ [] := by
  unfold populated
  constructor
  · rintro ⟨h0, h1, h2⟩
    obtain ⟨v, hv⟩ := index_in_range h0 h1
    exact ⟨v, hv, fun h => h2 (by rw [hv, h])⟩
  · rintro ⟨v, hv, hne⟩
    by_cases h : 0 ≤ col ∧ col < (row.length : Int)
    · exact ⟨h.1, h.2, by rw [hv]; simpa using hne⟩
    · rw [index_out_of_range h] at hv
      cases hv

theorem plainLines_eq_nil_iff (code : Char) (col : Int) (row : List GoString) :
    plainLines code col row = [] ↔ ¬ populated row col := by
  rw [populated_iff]
  unfold plainLines
  cases hv : index row col with
  | none => simp
  | some v => by_cases hne : v = [] <;> simp [hne]

theorem dateLines_eq_nil_iff (L : GoLib) (conf : Config) (row : List GoString) :
    dateLines L conf row = [] ↔ ¬ populated row conf.CsvColumnDate := by
  rw [populated_iff]
  unfold dateLines
  cases hv : index row conf.CsvColumnDate with
  | none => simp
  | some v => by_cases hne : v = [] <;> simp [hne]

theorem amountLines_eq_nil_iff (code : Char) (col : Int) (conf : Config)
    (row : List GoString) :
    amountLines code col conf row = [] ↔ ¬ populated row col := by
  rw [populated_iff]
  unfold amountLines
  cases hv : index row col with
  | none => simp
  | some v => by_cases hne : v = [] <;> simp [hne]

theorem fieldLines_eq_nil_iff (L : GoLib) (conf : Config) (row : List GoString) :
    fieldLines L conf row = [] ↔ ∀ col ∈ columns conf, ¬ populated row col := by
  simp only [fieldLines, columns, List.append_eq_nil, plainLines_eq_nil_iff,
    dateLines_eq_nil_iff, amountLines_eq_nil_iff, List.mem_cons, List.mem_singleton,
    forall_eq_or_imp, forall_eq, and_assoc, List.not_mem_nil, false_implies, implies_true,
    and_true]

theorem recordLines_eq_nil_iff (L : GoLib) (conf : Config) (row : List GoString) :
    recordLines L conf row = [] ↔ ∀ col ∈ columns conf, ¬ populated row col := by
  rw [← fieldLines_eq_nil_iff L conf row]
  unfold recordLines
  by_cases h : fieldLines L conf row = [] <;> simp [h]

theorem plainLines_shape (code : Char) (col : Int) (row : List GoString) :
    plainLines code col row = [] ∨ ∃ v, plainLines code col row = [code :: v] := by
  unfold plainLines
  cases index row col with
  | none => exact Or.inl rfl
  | some v =>
    by_cases hne : v = []
    · exact Or.inl (by simp [hne])
    · exact Or.inr ⟨v, by simp [hne]⟩

theorem dateLines_shape (L : GoLib) (conf : Config) (row : List GoString) :
    dateLines L conf row = [] ∨ ∃ v, dateLines L conf row = ['D' :: v] := by
  unfold dateLines
  cases index row conf.CsvColumnDate with
  | none => exact Or.inl rfl
  | some v =>
    by_cases hne : v = []
    · exact Or.inl (by simp [hne])
    · exact Or.inr ⟨dateText L conf v, by simp [hne]⟩

theorem amountLines_shape (code : Char) (col : Int) (conf : Config) (row : List GoString) :
    amountLines code col conf row = []
      ∨ ∃ v, amountLines code col conf row = [code :: v] := by
  unfold amountLines
  cases index row col with
  | none => exact Or.inl rfl
  | some v =>
    by_cases hne : v = []
    · exact Or.inl (by simp [hne])
    · exact Or.inr ⟨signReversed conf.CsvReverseAmountSign (formatAmount (TrimSpace v)),
        by simp [hne]⟩

/-- A list that is empty or one line beginning with `code`. -/
theorem heads_of_shape {code : Char} {ls : List GoString}
    (h : ls = [] ∨ ∃ v, ls = [code :: v]) :
    List.Sublist (ls.map List.head?) [some code] ∧ ∀ l ∈ ls, ∃ v, l = code :: v := by
  rcases h with h | ⟨v, h⟩
  · subst h; simp
  · subst h; simp

theorem fieldLines_heads (L : GoLib) (conf : Config) (row : List GoString) :
    List.Sublist ((fieldLines L conf row).map List.head?) (fieldCodes.map some) := by
  have hc : fieldCodes.map some
      = [some 'D'] ++ [some 'T'] ++ [some 'M'] ++ [some 'P'] ++ [some 'L'] ++ [some 'A']
        ++ [some 'N'] ++ [some 'C'] ++ [some 'F'] ++ [some 'S'] ++ [some 'E'] ++ [some '$']
        ++ [some '%'] := by decide
  rw [hc]
  unfold fieldLines
  simp only [List.map_append]
  exact ((((((((((((heads_of_shape (dateLines_shape L conf row)).1.append
    (heads_of_shape (amountLines_shape 'T' _ conf row)).1).append
    (heads_of_shape (plainLines_shape 'M' _ row)).1).append
    (heads_of_shape (plainLines_shape 'P' _ row)).1).append
    (heads_of_shape (plainLines_shape 'L' _ row)).1).append
    (heads_of_shape (plainLines_shape 'A' _ row)).1).append
    (heads_of_shape (plainLines_shape 'N' _ row)).1).append
    (heads_of_shape (plainLines_shape 'C' _ row)).1).append
    (heads_of_shape (plainLines_shape 'F' _ row)).1).append
    (heads_of_shape (plainLines_shape 'S' _ row)).1).append
    (heads_of_shape (plainLines_shape 'E' _ row)).1).append
    (heads_of_shape (amountLines_shape '$' _ conf row)).1).append
    (heads_of_shape (plainLines_shape '%' _ row)).1

theorem fieldLines_mem (L : GoLib) (conf : Config) (row : List GoString) :
    ∀ l ∈ fieldLines L conf row, ∃ code ∈ fieldCodes, ∃ v, l = code :: v := by
  intro l hl
  unfold fieldLines at hl
  simp only [List.mem_append] at hl
  have key : ∀ {code : Char} {ls : List GoString}, code ∈ fieldCodes →
      (ls = [] ∨ ∃ v, ls = [code :: v]) → l ∈ ls → ∃ code ∈ fieldCodes, ∃ v, l = code :: v :=
    fun hc hs hm => ⟨_, hc, (heads_of_shape hs).2 l hm⟩
  rcases hl with (((((((((((h | h) | h) | h) | h) | h) | h) | h) | h) | h) | h) | h) | h
  · exact key (by decide) (dateLines_shape L conf row) h
  · exact key (by decide) (amountLines_shape 'T' _ conf row) h
  · exact key (by decide) (plainLines_shape 'M' _ row) h
  · exact key (by decide) (plainLines_shape 'P' _ row) h
  · exact key (by decide) (plainLines_shape 'L' _ row) h
  · exact key (by decide) (plainLines_shape 'A' _ row) h
  · exact key (by decide) (plainLines_shape 'N' _ row) h
  · exact key (by decide) (plainLines_shape 'C' _ row) h
  · exact key (by decide) (plainLines_shape 'F' _ row) h
  · exact key (by decide) (plainLines_shape 'S' _ row) h
  · exact key (by decide) (plainLines_shape 'E' _ row) h
  · exact key (by decide) (amountLines_shape '$' _ conf row) h
  · exact key (by decide) (plainLines_shape '%' _ row) h

theorem index_append_cons (pre post : List GoString) (v : GoString) :
    index (pre ++ v :: post) (pre.length : Int) = some v := by
  have h1 : (pre.length : Int) < ((pre ++ v :: post).length : Int) := by
    simp only [List.length_append, List.length_cons]; omega
  have h2 : (pre ++ v :: post)[pre.length]? = some v := by
    rw [List.getElem?_append_right (Nat.le_refl _)]
    simp
  simp only [index, Int.toNat_ofNat, h2]
  simp [h1]

/-! ## The claims on the row loop -/

/-- C3. The row step writes no line at all exactly when no field is populated
(column index inside the row and a non-empty cell there).  So a configuration
with all thirteen indices -1 writes nothing for any row, and neither does a
row whose only mapped field is a Memo column holding the empty string. -/
theorem mapRow_nothing_iff (L : GoLib) (conf : Config) (row pre post : List GoString) :
    (∃ lines, mapRow L conf row = some lines
        ∧ (lines = [] ↔ ∀ col ∈ columns conf, ¬ populated row col))
    ∧ mapRow L conf.init row = some []
    ∧ mapRow L { conf.init with CsvColumnMemo := (pre.length : Int) } (pre ++ [] :: post)
        = some [] := by
  refine ⟨⟨_, mapRow_eq L conf row, recordLines_eq_nil_iff L conf row⟩, ?_, ?_⟩
  · rw [mapRow_eq, (recordLines_eq_nil_iff L conf.init row).2]
    intro col hcol
    have hneg : col = -1 := by
      simpa [columns, Config.init] using hcol
    subst hneg
    intro h
    exact absurd h.1 (by decide)
  · rw [mapRow_eq, (recordLines_eq_nil_iff L _ _).2]
    intro col hcol
    have hcases : col = -1 ∨ col = (pre.length : Int) := by
      simp only [columns, Config.init, List.mem_cons, List.mem_singleton,
        List.not_mem_nil, or_false] at hcol
      tauto
    rcases hcases with h | h
    · subst h
      intro h
      exact absurd h.1 (by decide)
    · subst h
      intro h
      exact h.2.2 (index_append_cons pre post [])

/-- C4. The field lines of a row come in the fixed order D, T, M, P, L, A, N,
C, F, S, E, $, %: the first characters of the lines written before the `^`
line form a subsequence of `DTMPLANCFSE$%`, whatever the column indices are. -/
theorem mapRow_field_order (L : GoLib) (conf : Config) (row : List GoString) :
    ∃ fields : List GoString,
      mapRow L conf row = some (if fields = [] then [] else fields ++ ["^".toList])
      ∧ List.Sublist (fields.map List.head?) ("DTMPLANCFSE$%".toList.map some) :=
  ⟨fieldLines L conf row, mapRow_eq L conf row, fieldLines_heads L conf row⟩

/-- C5. What a row writes is either nothing, or at least one field line
followed by the separator line `^` in last position; no line before the last
one is `^`. -/
theorem mapRow_record_shape (L : GoLib) (conf : Config) (row : List GoString) :
    ∃ lines, mapRow L conf row = some lines
      ∧ (lines = []
          ∨ ∃ fields : List GoString, fields ≠ [] ∧ lines = fields ++ ["^".toList]
              ∧ ∀ l ∈ fields, l ≠ "^".toList) := by
  refine ⟨_, mapRow_eq L conf row, ?_⟩
  unfold recordLines
  by_cases h : fieldLines L conf row = []
  · left; simp [h]
  · right
    refine ⟨fieldLines L conf row, h, by simp [h], ?_⟩
    intro l hl
    obtain ⟨code, hcode, v, rfl⟩ := fieldLines_mem L conf row l hl
    intro heq
    have hc : code = '^' := by
      have := congrArg List.head? heq
      simpa using this
    subst hc
    exact absurd hcode (by decide)

/-! ## Lemmas on the driver -/

/-- Once the header test can no longer succeed, the loop appends the record
of every row, in order. -/
theorem processRows_eq (L : GoLib) (conf : Config) (n : Nat) (rows : List (List GoString))
    (out : List GoString) (h : conf.CsvHasHeader = false ∨ 0 < n) :
    processRows L conf n rows out
      = some (out ++ (rows.map (recordLines L conf)).flatten) := by
  induction rows generalizing n out with
  | nil => simp [processRows]
  | cons row rest ih =>
    have hskip : (conf.CsvHasHeader && (n + 1 == 1)) = false := by
      rcases h with h | h
      · simp [h]
      · have : n ≠ 0 := by omega
        simp [this]
    unfold processRows
    simp only [hskip, mapRow_eq]
    rw [if_neg (by simp)]
    rw [ih (n + 1) _ (Or.inr (Nat.succ_pos n))]
    simp [List.append_assoc]

/-- With a header, the first row is skipped and the loop goes on as above. -/
theorem processRows_header (L : GoLib) (conf : Config) (row : List GoString)
    (rest : List (List GoString)) (out : List GoString) (h : conf.CsvHasHeader = true) :
    processRows L conf 0 (row :: rest) out
      = some (out ++ (rest.map (recordLines L conf)).flatten) := by
  unfold processRows
  simp only [h, Nat.zero_add, beq_self_eq_true, Bool.and_self, if_true]
  exact processRows_eq L conf 1 rest out (Or.inr Nat.one_pos)

theorem recordLines_header_irrelevant (L : GoLib) (conf : Config) (b : Bool)
    (row : List GoString) :
    recordLines L { conf with CsvHasHeader := b } row = recordLines L conf row := rfl

theorem map_mapRow (L : GoLib) (conf : Config) (rows : List (List GoString)) :
    rows.map (mapRow L conf) = (rows.map (recordLines L conf)).map some := by
  simp [mapRow_eq]

/-! ## The claims on the driver -/

/-- C6. Header skipping: with `CsvHasHeader = true` and input `r :: rs`, the
conversion succeeds and writes exactly what it writes for the input `rs` with
the same configuration except `CsvHasHeader = false`. -/
theorem convertCsv2Qif_header_skip (L : GoLib) (conf : Config) (r : List GoString)
    (rs : List (List GoString)) :
    ∃ out, convertCsv2Qif L (r :: rs) { conf with CsvHasHeader := true } = some out
      ∧ convertCsv2Qif L rs { conf with CsvHasHeader := false } = some out := by
  unfold convertCsv2Qif
  refine ⟨_, processRows_header L _ r rs _ rfl, ?_⟩
  rw [processRows_eq L _ 0 rs _ (Or.inl rfl)]
  rfl

/-- C7. For every configuration and every list of rows, the empty one
included, the conversion succeeds; its first line is `!Type:` followed by
`QifAccountType`, or `!Type:Bank` when `QifAccountType` is empty, and the
rest is the lines of the data rows, row after row in input order. -/
theorem convertCsv2Qif_type_line (L : GoLib) (conf : Config) (rows : List (List GoString)) :
    ∃ records : List (List GoString),
      (if conf.CsvHasHeader then rows.drop 1 else rows).map (mapRow L conf)
        = records.map some
      ∧ convertCsv2Qif L rows conf
        = some ((if conf.QifAccountType ≠ [] then "!Type:".toList ++ conf.QifAccountType
                  else "!Type:Bank".toList) :: records.flatten) := by
  refine ⟨(if conf.CsvHasHeader then rows.drop 1 else rows).map (recordLines L conf),
    map_mapRow L conf _, ?_⟩
  unfold convertCsv2Qif
  cases hh : conf.CsvHasHeader with
  | false =>
    rw [processRows_eq L conf 0 rows _ (Or.inl hh)]
    by_cases ht : conf.QifAccountType = [] <;> simp [ht]
  | true =>
    cases rows with
    | nil => by_cases ht : conf.QifAccountType = [] <;> simp [ht, processRows]
    | cons r rs =>
      rw [processRows_header L conf r rs _ hh]
      by_cases ht : conf.QifAccountType = [] <;> simp [ht]

/-! ## Lemmas on `strings.ReplaceAll` and `getDateLayout` -/

theorem replaceFrom_skip (old new pre s : GoString) :
    replaceFrom old new pre.length (pre ++ s) = replaceFrom old new 0 s := by
  induction pre with
  | nil => rfl
  | cons a t ih => simpa [replaceFrom] using ih

theorem replaceFrom_not_mem (o : Char) (os new s : GoString) (h : o ∉ s) :
    replaceFrom (o :: os) new 0 s = s := by
  induction s with
  | nil => rfl
  | cons c cs ih =>
    have hc : ¬ o = c := fun e => h (by simp [e])
    have hcs : o ∉ cs := fun e => h (List.mem_cons_of_mem _ e)
    simp [replaceFrom, List.isPrefixOf, hc, ih hcs]

theorem replaceFrom_append_left (o : Char) (os new a s : GoString) (h : o ∉ a) :
    replaceFrom (o :: os) new 0 (a ++ s) = a ++ replaceFrom (o :: os) new 0 s := by
  induction a with
  | nil => rfl
  | cons c cs ih =>
    have hc : ¬ o = c := fun e => h (by simp [e])
    have hcs : o ∉ cs := fun e => h (List.mem_cons_of_mem _ e)
    simp [replaceFrom, List.isPrefixOf, hc, ih hcs]

theorem replaceFrom_occurrence (o : Char) (os new s : GoString) :
    replaceFrom (o :: os) new 0 ((o :: os) ++ s)
      = new ++ replaceFrom (o :: os) new 0 s := by
  have hp : (o :: os).isPrefixOf (o :: (os ++ s)) = true := by
    rw [List.isPrefixOf_iff_prefix]
    exact List.prefix_append (o :: os) s
  have hk := replaceFrom_skip (o :: os) new os s
  have hstep : replaceFrom (o :: os) new 0 (o :: (os ++ s))
      = new ++ replaceFrom (o :: os) new os.length (os ++ s) := by
    rw [replaceFrom, if_pos hp]
    rfl
  rw [List.cons_append, hstep, hk]

/-- One occurrence of `old`, with the first rune of `old` nowhere else. -/
theorem replaceFrom_single (o : Char) (os new a b : GoString) (ha : o ∉ a) (hb : o ∉ b) :
    replaceFrom (o :: os) new 0 (a ++ ((o :: os) ++ b)) = a ++ (new ++ b) := by
  rw [replaceFrom_append_left o os new a _ ha, replaceFrom_occurrence,
    replaceFrom_not_mem o os new b hb]

/-- No occurrence of `old` when the text has too few copies of some rune. -/
theorem replaceFrom_count (x : Char) (old new s : GoString)
    (h : s.count x < old.count x) : replaceFrom old new 0 s = s := by
  induction s with
  | nil => rfl
  | cons c cs ih =>
    have hp : old.isPrefixOf (c :: cs) = false := by
      cases hp : old.isPrefixOf (c :: cs)
      · rfl
      · rw [List.isPrefixOf_iff_prefix] at hp
        have := hp.sublist.count_le x
        omega
    have hcs : cs.count x < old.count x := by
      have : cs.count x ≤ (c :: cs).count x := by
        rw [List.count_cons]; omega
      omega
    simp [replaceFrom, hp, ih hcs]

theorem ToUpper_eq_self_iff (tbl : Char → Char) (p : GoString) :
    ToUpper tbl p = p ↔ ∀ c ∈ p, toUpperRune tbl c = c := by
  unfold ToUpper
  induction p with
  | nil => simp
  | cons a t ih => simp [ih]

theorem not_mem_ToUpper_of_no_dateLetter (tbl : Char → Char) (p : GoString)
    (h : ∀ c ∈ p, dateLetter tbl c = false) :
    'D' ∉ ToUpper tbl p ∧ 'M' ∉ ToUpper tbl p ∧ 'Y' ∉ ToUpper tbl p := by
  have hmem : ∀ x : Char, (x = 'D' ∨ x = 'M' ∨ x = 'Y') → x ∉ ToUpper tbl p := by
    intro x hx hin
    unfold ToUpper at hin
    obtain ⟨c, hc, hcx⟩ := List.mem_map.1 hin
    have := h c hc
    unfold dateLetter at this
    rw [hcx] at this
    rcases hx with rfl | rfl | rfl <;> simp at this
  exact ⟨hmem _ (Or.inl rfl), hmem _ (Or.inr (Or.inl rfl)), hmem _ (Or.inr (Or.inr rfl))⟩

/-- The nine replacements on an upper-cased pattern `YYYY u1 MM u2 DD` whose
separators hold none of `D`, `M`, `Y`. -/
theorem getDateLayout_ymd_core (tbl : Char → Char) (p u1 u2 : GoString) (hne : ¬ p = [])
    (hup : ToUpper tbl p
      = "YYYY".toList ++ (u1 ++ ("MM".toList ++ u2)) ++ ("DD".toList ++ []))
    (hD1 : 'D' ∉ u1) (hM1 : 'M' ∉ u1) (hY1 : 'Y' ∉ u1)
    (hD2 : 'D' ∉ u2) (hM2 : 'M' ∉ u2) (hY2 : 'Y' ∉ u2) :
    getDateLayout tbl p = "2006".toList ++ u1 ++ "01".toList ++ u2 ++ "02".toList := by
  -- DD -> 02
  have st1 : ReplaceAll ("YYYY".toList ++ (u1 ++ ("MM".toList ++ u2)) ++ ("DD".toList ++ []))
      "DD".toList "02".toList = "YYYY".toList ++ (u1 ++ ("MM".toList ++ u2)) ++ "02".toList := by
    have := replaceFrom_single 'D' ['D'] "02".toList
      ("YYYY".toList ++ (u1 ++ ("MM".toList ++ u2))) []
      (by simp [hD1, hD2]) (by simp)
    simpa [ReplaceAll] using this
  -- D -> 2
  have st2 : ReplaceAll ("YYYY".toList ++ (u1 ++ ("MM".toList ++ u2)) ++ "02".toList)
      "D".toList "2".toList = "YYYY".toList ++ (u1 ++ ("MM".toList ++ u2)) ++ "02".toList := by
    have := replaceFrom_not_mem 'D' [] "2".toList
      ("YYYY".toList ++ (u1 ++ ("MM".toList ++ u2)) ++ "02".toList) (by simp [hD1, hD2])
    simpa [ReplaceAll] using this
  have hcount : ("YYYY".toList ++ (u1 ++ ("MM".toList ++ u2)) ++ "02".toList).count 'M' = 2 := by
    simp [List.count_append, List.count_eq_zero_of_not_mem hM1,
      List.count_eq_zero_of_not_mem hM2, List.count_cons]
  -- MMMM -> January, MMM -> Jan
  have st3 : ReplaceAll ("YYYY".toList ++ (u1 ++ ("MM".toList ++ u2)) ++ "02".toList)
      "MMMM".toList "January".toList
        = "YYYY".toList ++ (u1 ++ ("MM".toList ++ u2)) ++ "02".toList := by
    have := replaceFrom_count 'M' "MMMM".toList "January".toList _
      (by rw [hcount]; decide :
        ("YYYY".toList ++ (u1 ++ ("MM".toList ++ u2)) ++ "02".toList).count 'M'
          < ("MMMM".toList).count 'M')
    simpa [ReplaceAll] using this
  have st4 : ReplaceAll ("YYYY".toList ++ (u1 ++ ("MM".toList ++ u2)) ++ "02".toList)
      "MMM".toList "Jan".toList
        = ("YYYY".toList ++ u1) ++ ("MM".toList ++ (u2 ++ "02".toList)) := by
    have := replaceFrom_count 'M' "MMM".toList "Jan".toList _
      (by rw [hcount]; decide :
        ("YYYY".toList ++ (u1 ++ ("MM".toList ++ u2)) ++ "02".toList).count 'M'
          < ("MMM".toList).count 'M')
    simpa [ReplaceAll] using this
  -- MM -> 01
  have st5 : ReplaceAll (("YYYY".toList ++ u1) ++ ("MM".toList ++ (u2 ++ "02".toList)))
      "MM".toList "01".toList = ("YYYY".toList ++ u1) ++ ("01".toList ++ (u2 ++ "02".toList)) := by
    have := replaceFrom_single 'M' ['M'] "01".toList ("YYYY".toList ++ u1) (u2 ++ "02".toList)
      (by simp [hM1]) (by simp [hM2])
    simpa [ReplaceAll] using this
  -- M -> 1
  have st6 : ReplaceAll (("YYYY".toList ++ u1) ++ ("01".toList ++ (u2 ++ "02".toList)))
      "M".toList "1".toList
        = [] ++ ("YYYY".toList ++ (u1 ++ ("01".toList ++ (u2 ++ "02".toList)))) := by
    have := replaceFrom_not_mem 'M' [] "1".toList
      (("YYYY".toList ++ u1) ++ ("01".toList ++ (u2 ++ "02".toList))) (by simp [hM1, hM2])
    simpa [ReplaceAll] using this
  -- YYYY -> 2006
  have st7 : ReplaceAll ([] ++ ("YYYY".toList ++ (u1 ++ ("01".toList ++ (u2 ++ "02".toList)))))
      "YYYY".toList "2006".toList
        = "2006".toList ++ (u1 ++ ("01".toList ++ (u2 ++ "02".toList))) := by
    have := replaceFrom_single 'Y' ['Y', 'Y', 'Y'] "2006".toList []
      (u1 ++ ("01".toList ++ (u2 ++ "02".toList))) (by simp) (by simp [hY1, hY2])
    simpa [ReplaceAll] using this
  -- YY -> 06, Y -> 06
  have st8 : ReplaceAll ("2006".toList ++ (u1 ++ ("01".toList ++ (u2 ++ "02".toList))))
      "YY".toList "06".toList
        = "2006".toList ++ (u1 ++ ("01".toList ++ (u2 ++ "02".toList))) := by
    have := replaceFrom_not_mem 'Y' ['Y'] "06".toList
      ("2006".toList ++ (u1 ++ ("01".toList ++ (u2 ++ "02".toList)))) (by simp [hY1, hY2])
    simpa [ReplaceAll] using this
  have st9 : ReplaceAll ("2006".toList ++ (u1 ++ ("01".toList ++ (u2 ++ "02".toList))))
      "Y".toList "06".toList
        = "2006".toList ++ u1 ++ "01".toList ++ u2 ++ "02".toList := by
    have := replaceFrom_not_mem 'Y' [] "06".toList
      ("2006".toList ++ (u1 ++ ("01".toList ++ (u2 ++ "02".toList)))) (by simp [hY1, hY2])
    simpa [ReplaceAll] using this
  unfold getDateLayout
  rw [if_neg hne]
  simp only [hup, st1, st2, st3, st4, st5, st6, st7, st8, st9]

theorem getDateLayout_ymd (tbl : Char → Char) (s1 s2 : GoString)
    (h1 : ∀ c ∈ s1, dateLetter tbl c = false) (h2 : ∀ c ∈ s2, dateLetter tbl c = false) :
    getDateLayout tbl ("YYYY".toList ++ s1 ++ "MM".toList ++ s2 ++ "DD".toList)
      = "2006".toList ++ ToUpper tbl s1 ++ "01".toList ++ ToUpper tbl s2 ++ "02".toList := by
  obtain ⟨hD1, hM1, hY1⟩ := not_mem_ToUpper_of_no_dateLetter tbl s1 h1
  obtain ⟨hD2, hM2, hY2⟩ := not_mem_ToUpper_of_no_dateLetter tbl s2 h2
  have hne : ¬ ("YYYY".toList ++ s1 ++ "MM".toList ++ s2 ++ "DD".toList = []) := by simp
  have hup : ToUpper tbl ("YYYY".toList ++ s1 ++ "MM".toList ++ s2 ++ "DD".toList)
      = "YYYY".toList ++ (ToUpper tbl s1 ++ ("MM".toList ++ ToUpper tbl s2))
          ++ ("DD".toList ++ []) := by
    have e1 : ToUpper tbl "YYYY".toList = "YYYY".toList := rfl
    have e2 : ToUpper tbl "MM".toList = "MM".toList := rfl
    have e3 : ToUpper tbl "DD".toList = "DD".toList := rfl
    unfold ToUpper at e1 e2 e3 ⊢
    simp only [List.map_append, e1, e2, e3, List.append_assoc, List.append_nil]
  exact getDateLayout_ymd_core tbl _ _ _ hne hup hD1 hM1 hY1 hD2 hM2 hY2

theorem length_ToUpper (tbl : Char → Char) (s : GoString) :
    (ToUpper tbl s).length = s.length := by
  simp [ToUpper]

/-- The separators come back as they were exactly when upper-casing leaves
them alone. -/
theorem ymd_in_place_iff (tbl : Char → Char) (s1 s2 : GoString) :
    "2006".toList ++ ToUpper tbl s1 ++ "01".toList ++ ToUpper tbl s2 ++ "02".toList
        = "2006".toList ++ s1 ++ "01".toList ++ s2 ++ "02".toList
      ↔ (∀ c ∈ s1, toUpperRune tbl c = c) ∧ (∀ c ∈ s2, toUpperRune tbl c = c) := by
  rw [← ToUpper_eq_self_iff, ← ToUpper_eq_self_iff]
  constructor
  · intro h
    simp only [List.append_assoc] at h
    have h1 := List.append_cancel_left h
    obtain ⟨e1, h2⟩ := List.append_inj h1 (length_ToUpper tbl s1)
    have h3 := List.append_cancel_left h2
    exact ⟨e1, List.append_cancel_right h3⟩
  · rintro ⟨e1, e2⟩
    rw [e1, e2]

/-! ## The claim on `getDateLayout` -/

/-- C10, as stated, fails: the separator U+24D0 is a symbol, not a letter,
but it has an upper-case form, U+24B6, and `getDateLayout` upper-cases the
whole pattern, separators included. -/
theorem getDateLayout_tokens_in_place_counterexample :
    (Char.ofNat 0x24D0).isAlpha = false
    ∧ getDateLayout circledUpperTable
        ("YYYY".toList ++ [Char.ofNat 0x24D0] ++ "MM".toList ++ "-".toList ++ "DD".toList)
      = "2006".toList ++ [Char.ofNat 0x24B6] ++ "01".toList ++ "-".toList ++ "02".toList
    ∧ getDateLayout circledUpperTable
        ("YYYY".toList ++ [Char.ofNat 0x24D0] ++ "MM".toList ++ "-".toList ++ "DD".toList)
      ≠ "2006".toList ++ [Char.ofNat 0x24D0] ++ "01".toList ++ "-".toList ++ "02".toList := by
  decide

/-- C10, amended. `getDateLayout "YYYY-MM-DD"` is `2006-01-02`, and for all
separator strings `s1` and `s2` with no rune whose upper-case form is `D`,
`M` or `Y`, `getDateLayout ("YYYY" ++ s1 ++ "MM" ++ s2 ++ "DD")` is `"2006"
++ ToUpper s1 ++ "01" ++ ToUpper s2 ++ "02"`: the tokens are translated in
place and the separators come back upper-cased, so they come back as they
were exactly when upper-casing changes no rune of them. -/
theorem getDateLayout_tokens_in_place (tbl : Char → Char) :
    getDateLayout tbl "YYYY-MM-DD".toList = "2006-01-02".toList
    ∧ ∀ s1 s2 : GoString,
        (∀ c ∈ s1, dateLetter tbl c = false) → (∀ c ∈ s2, dateLetter tbl c = false) →
        getDateLayout tbl ("YYYY".toList ++ s1 ++ "MM".toList ++ s2 ++ "DD".toList)
          = "2006".toList ++ ToUpper tbl s1 ++ "01".toList ++ ToUpper tbl s2 ++ "02".toList
        ∧ (getDateLayout tbl ("YYYY".toList ++ s1 ++ "MM".toList ++ s2 ++ "DD".toList)
              = "2006".toList ++ s1 ++ "01".toList ++ s2 ++ "02".toList
            ↔ (∀ c ∈ s1, toUpperRune tbl c = c) ∧ (∀ c ∈ s2, toUpperRune tbl c = c)) := by
  refine ⟨?_, fun s1 s2 h1 h2 => ?_⟩
  · have hsep : ∀ c ∈ "-".toList, dateLetter tbl c = false := by
      intro c hc
      have hc2 : c = '-' := by simpa using hc
      subst hc2
      rfl
    exact getDateLayout_ymd tbl "-".toList "-".toList hsep hsep
  · have e := getDateLayout_ymd tbl s1 s2 h1 h2
    exact ⟨e, by rw [e]; exact ymd_in_place_iff tbl s1 s2⟩

/-- Witness for C10 with the separators ` t/` and `.1`. -/
theorem getDateLayout_tokens_in_place_witness :
    (∀ c ∈ " t/".toList, dateLetter id c = false)
    ∧ (∀ c ∈ ".1".toList, dateLetter id c = false)
    ∧ getDateLayout id ("YYYY".toList ++ " t/".toList ++ "MM".toList ++ ".1".toList
          ++ "DD".toList)
        = "2006".toList ++ ToUpper id " t/".toList ++ "01".toList ++ ToUpper id ".1".toList
            ++ "02".toList
    ∧ (getDateLayout id ("YYYY".toList ++ " t/".toList ++ "MM".toList ++ ".1".toList
            ++ "DD".toList)
          = "2006".toList ++ " t/".toList ++ "01".toList ++ ".1".toList ++ "02".toList
        ↔ (∀ c ∈ " t/".toList, toUpperRune id c = c)
          ∧ (∀ c ∈ ".1".toList, toUpperRune id c = c)) :=
  ⟨by decide, by decide,
    (getDateLayout_tokens_in_place id).2 " t/".toList ".1".toList (by decide) (by decide)⟩

/-! ## More on `getDateLayout` -/

theorem getDateLayout_of_no_dateLetter (tbl : Char → Char) (p : GoString)
    (h : ∀ c ∈ p, dateLetter tbl c = false) : getDateLayout tbl p = ToUpper tbl p := by
  obtain ⟨hD, hM, hY⟩ := not_mem_ToUpper_of_no_dateLetter tbl p h
  have r1 : ∀ (o : Char) (os new : GoString), o ∉ ToUpper tbl p →
      ReplaceAll (ToUpper tbl p) (o :: os) new = ToUpper tbl p := by
    intro o os new ho
    simp [ReplaceAll, replaceFrom_not_mem o os new _ ho]
  unfold getDateLayout
  split
  · next hp => subst hp; rfl
  · have e1 := r1 'D' ['D'] "02".toList hD
    have e2 := r1 'D' [] "2".toList hD
    have e3 := r1 'M' ['M', 'M', 'M'] "January".toList hM
    have e4 := r1 'M' ['M', 'M'] "Jan".toList hM
    have e5 := r1 'M' ['M'] "01".toList hM
    have e6 := r1 'M' [] "1".toList hM
    have e7 := r1 'Y' ['Y', 'Y', 'Y'] "2006".toList hY
    have e8 := r1 'Y' ['Y'] "06".toList hY
    have e9 := r1 'Y' [] "06".toList hY
    show ReplaceAll (ReplaceAll (ReplaceAll (ReplaceAll (ReplaceAll (ReplaceAll (ReplaceAll
      (ReplaceAll (ReplaceAll (ToUpper tbl p) ['D', 'D'] "02".toList) ['D'] "2".toList)
      ['M', 'M', 'M', 'M'] "January".toList) ['M', 'M', 'M'] "Jan".toList)
      ['M', 'M'] "01".toList) ['M'] "1".toList) ['Y', 'Y', 'Y', 'Y'] "2006".toList)
      ['Y', 'Y'] "06".toList) ['Y'] "06".toList = ToUpper tbl p
    rw [e1, e2, e3, e4, e5, e6, e7, e8, e9]

/-- C11, as stated, fails: `hh:ss` has none of the letters D, M, Y in either
case, and `getDateLayout` returns it upper-cased. -/
theorem getDateLayout_unrecognised_counterexample :
    (∀ c ∈ "hh:ss".toList, c ∉ "dDmMyY".toList)
    ∧ getDateLayout id "hh:ss".toList = "HH:SS".toList
    ∧ getDateLayout id "hh:ss".toList ≠ "hh:ss".toList := by
  decide

/-- C11, amended. For every pattern `p` with none of the letters D, M, Y in
either case (no rune whose upper-case form is `D`, `M` or `Y`),
`getDateLayout p` is `strings.ToUpper p`: what is not a token passes through
upper-cased, and comes back unchanged exactly when upper-casing changes no
rune of `p`. -/
theorem getDateLayout_unrecognised (tbl : Char → Char) (p : GoString)
    (h : ∀ c ∈ p, dateLetter tbl c = false) :
    getDateLayout tbl p = ToUpper tbl p
    ∧ (getDateLayout tbl p = p ↔ ∀ c ∈ p, toUpperRune tbl c = c) := by
  have e := getDateLayout_of_no_dateLetter tbl p h
  exact ⟨e, by rw [e]; exact ToUpper_eq_self_iff tbl p⟩

/-- Witness for C11 with the pattern `hh:ss 05`. -/
theorem getDateLayout_unrecognised_witness :
    (∀ c ∈ "hh:ss 05".toList, dateLetter id c = false)
    ∧ getDateLayout id "hh:ss 05".toList = ToUpper id "hh:ss 05".toList
    ∧ (getDateLayout id "hh:ss 05".toList = "hh:ss 05".toList
        ↔ ∀ c ∈ "hh:ss 05".toList, toUpperRune id c = c) :=
  ⟨by decide, getDateLayout_unrecognised id "hh:ss 05".toList (by decide)⟩

/-! ## More on `formatAmount` and `strings.TrimSpace` -/

theorem keep_true_of_tail (t : GoString) (ht : ∀ c ∈ t, isTail c = true) :
    keep true t = t := by
  induction t with
  | nil => rfl
  | cons c cs ih =>
    have hc : isTail c = true := ht c (List.mem_cons_self _ _)
    simp [keep, hc, ih (fun x hx => ht x (List.mem_cons_of_mem _ hx))]

theorem keep_false_numeral (neg : Bool) (d : Char) (t : GoString) (hd : isDigit d = true)
    (ht : ∀ c ∈ t, isTail c = true) :
    keep false ((if neg then ['-'] else []) ++ d :: t)
      = (if neg then ['-'] else []) ++ d :: t := by
  have h1 : keep false (d :: t) = d :: t := by
    simp [keep, isDigit_ne_minus hd, hd, keep_true_of_tail t ht]
  cases neg with
  | false => simpa using h1
  | true =>
    show keep false ('-' :: d :: t) = '-' :: d :: t
    rw [keep, if_pos rfl, h1]

theorem keep_false_eq_nil (s : GoString)
    (h : ∀ c ∈ s, isDigit c = false ∧ c ≠ '-') : keep false s = [] := by
  induction s with
  | nil => rfl
  | cons c cs ih =>
    have hc := h c (List.mem_cons_self _ _)
    simp [keep, hc.1, hc.2, ih (fun x hx => h x (List.mem_cons_of_mem _ hx))]

theorem mem_of_mem_TrimSpace {s : GoString} {c : Char} (h : c ∈ TrimSpace s) : c ∈ s := by
  unfold TrimSpace at h
  rw [List.mem_reverse] at h
  have h2 := (List.dropWhile_sublist isSpace).subset h
  rw [List.mem_reverse] at h2
  exact (List.dropWhile_sublist isSpace).subset h2

theorem dropWhile_of_all_false {p : Char → Bool} (s : GoString)
    (h : ∀ c ∈ s, p c = false) : s.dropWhile p = s := by
  cases s with
  | nil => rfl
  | cons a t => simp [List.dropWhile_cons, h a (List.mem_cons_self _ _)]

theorem TrimSpace_of_no_space (s : GoString) (h : ∀ c ∈ s, isSpace c = false) :
    TrimSpace s = s := by
  unfold TrimSpace
  rw [dropWhile_of_all_false s h,
    dropWhile_of_all_false s.reverse (fun c hc => h c (List.mem_reverse.1 hc)),
    List.reverse_reverse]

theorem isSpace_of_isDigit {c : Char} (h : isDigit c = true) : isSpace c = false := by
  simp only [isDigit, Bool.and_eq_true, decide_eq_true_eq] at h
  have h1 : 48 ≤ c.toNat := h.1
  have h2 : c.toNat ≤ 57 := h.2
  simp only [isSpace, Bool.or_eq_false_iff, beq_eq_false_iff_ne, ne_eq, Bool.and_eq_false_iff,
    decide_eq_false_iff_not]
  omega

theorem isSpace_of_isTail {c : Char} (h : isTail c = true) : isSpace c = false := by
  simp only [isTail, Bool.or_eq_true, beq_iff_eq] at h
  rcases h with (h | h) | h
  · exact isSpace_of_isDigit h
  · subst h; decide
  · subst h; decide

theorem TrimSpace_numeral (neg : Bool) (d : Char) (t : GoString) (hd : isDigit d = true)
    (ht : ∀ c ∈ t, isTail c = true) :
    TrimSpace ((if neg then ['-'] else []) ++ d :: t)
      = (if neg then ['-'] else []) ++ d :: t := by
  apply TrimSpace_of_no_space
  intro c hc
  have hcases : c = '-' ∨ c = d ∨ c ∈ t := by
    cases neg <;> simp at hc <;> tauto
  rcases hcases with h | h | h
  · subst h; decide
  · subst h; exact isSpace_of_isDigit hd
  · exact isSpace_of_isTail (ht c h)

/-- C17. `formatAmount "$1,234.56"` is `1,234.56` and `formatAmount "USD -99"`
is `-99`: the currency symbol or code and the white space are removed, the
numeral, its separators and the minus sign before the digits are kept. -/
theorem formatAmount_scenarios :
    formatAmount "$1,234.56".toList = "1,234.56".toList
    ∧ formatAmount "USD -99".toList = "-99".toList := by
  decide

/-! ## The line of one field in the output of a row -/

theorem linesWithCode_append (c : Char) (a b : List GoString) :
    linesWithCode c (a ++ b) = linesWithCode c a ++ linesWithCode c b := by
  simp [linesWithCode]

theorem linesWithCode_of_shape {c code : Char} {ls : List GoString}
    (h : ls = [] ∨ ∃ v, ls = [code :: v]) :
    linesWithCode c ls = if code = c then ls else [] := by
  rcases h with h | ⟨v, h⟩
  · subst h; simp [linesWithCode]
  · subst h
    by_cases hc : code = c <;> simp [linesWithCode, hc]

theorem linesWithCode_plain (c code : Char) (col : Int) (row : List GoString) :
    linesWithCode c (plainLines code col row)
      = if code = c then plainLines code col row else [] :=
  linesWithCode_of_shape (plainLines_shape code col row)

theorem linesWithCode_amount (c code : Char) (col : Int) (conf : Config)
    (row : List GoString) :
    linesWithCode c (amountLines code col conf row)
      = if code = c then amountLines code col conf row else [] :=
  linesWithCode_of_shape (amountLines_shape code col conf row)

theorem linesWithCode_date (c : Char) (L : GoLib) (conf : Config) (row : List GoString) :
    linesWithCode c (dateLines L conf row) = if 'D' = c then dateLines L conf row else [] :=
  linesWithCode_of_shape (dateLines_shape L conf row)

theorem linesWithCode_record (L : GoLib) (conf : Config) (row : List GoString) (c : Char)
    (h : c ≠ '^') :
    linesWithCode c (recordLines L conf row) = linesWithCode c (fieldLines L conf row) := by
  have hc : ¬ '^' = c := fun e => h e.symm
  unfold recordLines
  split
  · next h0 => rw [h0]
  · simp [linesWithCode_append, linesWithCode, hc]

theorem linesWithCode_fieldLines (L : GoLib) (conf : Config) (row : List GoString)
    (c : Char) :
    linesWithCode c (fieldLines L conf row)
      = (if 'D' = c then dateLines L conf row else [])
        ++ (if 'T' = c then amountLines 'T' conf.CsvColumnAmount conf row else [])
        ++ (if 'M' = c then plainLines 'M' conf.CsvColumnMemo row else [])
        ++ (if 'P' = c then plainLines 'P' conf.CsvColumnPayee row else [])
        ++ (if 'L' = c then plainLines 'L' conf.CsvColumnCategory row else [])
        ++ (if 'A' = c then plainLines 'A' conf.CsvColumnAddress row else [])
        ++ (if 'N' = c then plainLines 'N' conf.CsvColumnRefNumber row else [])
        ++ (if 'C' = c then plainLines 'C' conf.CsvColumnCleared row else [])
        ++ (if 'F' = c then plainLines 'F' conf.CsvColumnReimburseFlag row else [])
        ++ (if 'S' = c then plainLines 'S' conf.CsvColumnSplitCategory row else [])
        ++ (if 'E' = c then plainLines 'E' conf.CsvColumnSplitMemo row else [])
        ++ (if '$' = c then amountLines '$' conf.CsvColumnSplitAmount conf row else [])
        ++ (if '%' = c then plainLines '%' conf.CsvColumnSplitPercentage row else []) := by
  unfold fieldLines
  simp only [linesWithCode_append, linesWithCode_plain, linesWithCode_amount,
    linesWithCode_date]

theorem linesWithCode_T (L : GoLib) (conf : Config) (row : List GoString) :
    linesWithCode 'T' (recordLines L conf row)
      = amountLines 'T' conf.CsvColumnAmount conf row := by
  rw [linesWithCode_record L conf row 'T' (by decide), linesWithCode_fieldLines]
  simp

theorem linesWithCode_dollar (L : GoLib) (conf : Config) (row : List GoString) :
    linesWithCode '$' (recordLines L conf row)
      = amountLines '$' conf.CsvColumnSplitAmount conf row := by
  rw [linesWithCode_record L conf row '$' (by decide), linesWithCode_fieldLines]
  simp

theorem amountLines_of_cell {code : Char} {col : Int} {conf : Config}
    {row : List GoString} {cell : GoString} (hcell : index row col = some cell)
    (hne : cell ≠ []) :
    amountLines code col conf row
      = [code :: signReversed conf.CsvReverseAmountSign (formatAmount (TrimSpace cell))] := by
  simp [amountLines, hcell, hne]

theorem dateLines_of_cell {L : GoLib} {conf : Config} {row : List GoString} {v : GoString}
    (hcell : index row conf.CsvColumnDate = some v) (hne : v ≠ []) :
    dateLines L conf row = ['D' :: dateText L conf v] := by
  simp [dateLines, hcell, hne]

theorem signReversed_true (n : GoString) (hn : n ≠ []) :
    signReversed true n = if n.head? = some '-' then n.drop 1 else '-' :: n := by
  cases n with
  | nil => exact absurd rfl hn
  | cons c r =>
    by_cases hc : c = '-'
    · simp [signReversed, reverseAmountSign, flipSign, hc]
    · simp [signReversed, reverseAmountSign, flipSign, hc]

theorem signReversed_false (n : GoString) : signReversed false n = n := by
  simp [signReversed, reverseAmountSign]

theorem signReversed_nil (reverse : Bool) : signReversed reverse [] = [] := by
  cases reverse <;> simp [signReversed, reverseAmountSign]

theorem recordLines_of_date {L : GoLib} {conf : Config} {row : List GoString}
    {v : GoString} (hcell : index row conf.CsvColumnDate = some v) (hne : v ≠ []) :
    ∃ rest, recordLines L conf row = ('D' :: dateText L conf v) :: rest := by
  have hf : ∃ X, fieldLines L conf row = ('D' :: dateText L conf v) :: X := by
    unfold fieldLines
    rw [dateLines_of_cell hcell hne]
    simp only [List.cons_append, List.nil_append]
    exact ⟨_, rfl⟩
  obtain ⟨X, hX⟩ := hf
  exact ⟨X ++ [['^']], by simp [recordLines, hX]⟩

theorem recordLines_getLast (L : GoLib) (conf : Config) (row : List GoString)
    (h : fieldLines L conf row ≠ []) :
    (recordLines L conf row).getLast? = some ['^'] := by
  simp [recordLines, h]

theorem index_out_of_range_lines (L : GoLib) (conf : Config) (row : List GoString)
    (code : Char) (col : Int) (h : ¬ (0 ≤ col ∧ col < (row.length : Int))) :
    plainLines code col row = [] ∧ amountLines code col conf row = []
    ∧ (col = conf.CsvColumnDate → dateLines L conf row = []) := by
  have hi := index_out_of_range h
  refine ⟨by simp [plainLines, hi], by simp [amountLines, hi], ?_⟩
  intro hc
  subst hc
  simp [dateLines, hi]

theorem fieldTable_eq (conf : Config) :
    fieldTable conf =
      [('D', conf.CsvColumnDate), ('T', conf.CsvColumnAmount), ('M', conf.CsvColumnMemo),
       ('P', conf.CsvColumnPayee), ('L', conf.CsvColumnCategory),
       ('A', conf.CsvColumnAddress), ('N', conf.CsvColumnRefNumber),
       ('C', conf.CsvColumnCleared), ('F', conf.CsvColumnReimburseFlag),
       ('S', conf.CsvColumnSplitCategory), ('E', conf.CsvColumnSplitMemo),
       ('$', conf.CsvColumnSplitAmount), ('%', conf.CsvColumnSplitPercentage)] := rfl

theorem linesWithCode_out_of_range (L : GoLib) (conf : Config) (row : List GoString)
    (p : Char × Int) (hp : p ∈ fieldTable conf)
    (h : ¬ (0 ≤ p.2 ∧ p.2 < (row.length : Int))) :
    linesWithCode p.1 (recordLines L conf row) = [] := by
  have every : ∀ q ∈ fieldTable conf, ¬ (0 ≤ q.2 ∧ q.2 < (row.length : Int)) →
      linesWithCode q.1 (recordLines L conf row) = [] := by
    rw [fieldTable_eq]
    simp only [List.forall_mem_cons, List.not_mem_nil, false_implies, implies_true, and_true]
    repeat' apply And.intro
    all_goals
      intro hq
      have k1 := fun code => (index_out_of_range_lines L conf row code _ hq).1
      have k2 := fun code => (index_out_of_range_lines L conf row code _ hq).2.1
      have k3 := (index_out_of_range_lines L conf row 'D' _ hq).2.2
      rw [linesWithCode_record L conf row _ (by decide), linesWithCode_fieldLines]
      first
        | simp [k3 rfl]
        | simp [k1, k2]
  exact every p hp h

/-! ## The claims on single fields -/

/-- C12. With sign reversal enabled, when the Amount cell is there and not
empty and its normalised value `n` is not empty, the line written for the
Amount field is `T` followed by `n` without its first rune when `n` begins
with `-`, and `T-` followed by `n` otherwise; the SplitAmount field does the
same with the code `$`.  The cell `50.00` gives `T-50.00` and the cell
`-50.00` gives `T50.00`. -/
theorem amount_line_sign_reversed :
    (∀ (L : GoLib) (conf : Config) (row : List GoString) (code : Char) (col : Int)
        (cell : GoString),
        ((code, col) = ('T', conf.CsvColumnAmount)
          ∨ (code, col) = ('$', conf.CsvColumnSplitAmount)) →
        conf.CsvReverseAmountSign = true →
        index row col = some cell → cell ≠ [] →
        formatAmount (TrimSpace cell) ≠ [] →
        ∃ lines, mapRow L conf row = some lines
          ∧ linesWithCode code lines =
              [code :: (if (formatAmount (TrimSpace cell)).head? = some '-'
                         then (formatAmount (TrimSpace cell)).drop 1
                         else '-' :: formatAmount (TrimSpace cell))])
    ∧ mapRow GoLib.plain
        { Config.blank with CsvColumnAmount := 0, CsvReverseAmountSign := true }
        ["50.00".toList] = some ["T-50.00".toList, "^".toList]
    ∧ mapRow GoLib.plain
        { Config.blank with CsvColumnAmount := 0, CsvReverseAmountSign := true }
        ["-50.00".toList] = some ["T50.00".toList, "^".toList] := by
  refine ⟨?_, by decide, by decide⟩
  intro L conf row code col cell hfield hrev hcell hne hn
  refine ⟨_, mapRow_eq L conf row, ?_⟩
  rcases hfield with h | h
  · obtain ⟨rfl, rfl⟩ := Prod.mk.inj h
    rw [linesWithCode_T, amountLines_of_cell hcell hne, hrev, signReversed_true _ hn]
  · obtain ⟨rfl, rfl⟩ := Prod.mk.inj h
    rw [linesWithCode_dollar, amountLines_of_cell hcell hne, hrev, signReversed_true _ hn]

/-- Witness for C12: the SplitAmount cell ` $ 7,5 ` with sign reversal. -/
theorem amount_line_sign_reversed_witness :
    ∃ lines,
      mapRow GoLib.plain
        { Config.blank with CsvColumnSplitAmount := 1, CsvReverseAmountSign := true }
        ["x".toList, " $ 7,5 ".toList] = some lines
      ∧ linesWithCode '$' lines =
          ['$' :: (if (formatAmount (TrimSpace " $ 7,5 ".toList)).head? = some '-'
                     then (formatAmount (TrimSpace " $ 7,5 ".toList)).drop 1
                     else '-' :: formatAmount (TrimSpace " $ 7,5 ".toList))] :=
  amount_line_sign_reversed.1 GoLib.plain
    { Config.blank with CsvColumnSplitAmount := 1, CsvReverseAmountSign := true }
    ["x".toList, " $ 7,5 ".toList] '$' 1 " $ 7,5 ".toList
    (Or.inr rfl) rfl (by decide) (by decide) (by decide)

/-- C13. When the Date cell `v` is there and not empty and one of the two
date patterns is empty, the first line written for the row is `D` followed by
`v` as it is. -/
theorem date_line_raw (L : GoLib) (conf : Config) (row : List GoString) (v : GoString)
    (hcell : index row conf.CsvColumnDate = some v) (hne : v ≠ [])
    (hfmt : conf.CsvDateFormat = [] ∨ conf.QifDateFormat = []) :
    ∃ rest, mapRow L conf row = some (('D' :: v) :: rest) := by
  obtain ⟨rest, hrest⟩ := recordLines_of_date (L := L) hcell hne
  have hd : dateText L conf v = v := by
    unfold dateText
    rcases hfmt with h | h <;> simp [h]
  rw [hd] at hrest
  exact ⟨rest, by rw [mapRow_eq, hrest]⟩

/-- Witness for C13: a date cell with only the CSV pattern set. -/
theorem date_line_raw_witness :
    ∃ rest,
      mapRow GoLib.plain { Config.blank with CsvColumnDate := 0, CsvDateFormat := "DD".toList }
        ["05/01".toList] = some (('D' :: "05/01".toList) :: rest) :=
  date_line_raw GoLib.plain
    { Config.blank with CsvColumnDate := 0, CsvDateFormat := "DD".toList }
    ["05/01".toList] "05/01".toList (by decide) (by decide) (Or.inr rfl)

/-- C14. A date that does not parse is not an error: with both date patterns
set, if parsing the Date cell with `getDateLayout CsvDateFormat` fails, the
row step succeeds and writes exactly the lines it writes with both patterns
empty; the Date line is `D` followed by the raw cell. -/
theorem date_parse_failure_falls_back (L : GoLib) (conf : Config) (row : List GoString)
    (_hcsv : conf.CsvDateFormat ≠ []) (_hqif : conf.QifDateFormat ≠ [])
    (hfail : ∀ v, index row conf.CsvColumnDate = some v → v ≠ [] →
      L.timeParse (getDateLayout L.upperTable conf.CsvDateFormat) v = none) :
    (∃ lines, mapRow L conf row = some lines
        ∧ mapRow L { conf with CsvDateFormat := [], QifDateFormat := [] } row = some lines)
    ∧ ∀ v, index row conf.CsvColumnDate = some v → v ≠ [] →
        ∃ rest, mapRow L conf row = some (('D' :: v) :: rest) := by
  have hdt : ∀ v, index row conf.CsvColumnDate = some v → v ≠ [] →
      dateText L conf v = v := by
    intro v hv hne
    unfold dateText
    split
    · rw [hfail v hv hne]
    · rfl
  constructor
  · refine ⟨_, mapRow_eq L conf row, ?_⟩
    rw [mapRow_eq]
    have hd : dateLines L { conf with CsvDateFormat := [], QifDateFormat := [] } row
        = dateLines L conf row := by
      unfold dateLines
      show (match index row conf.CsvColumnDate with
        | some v => if v = [] then []
            else ['D' :: dateText L { conf with CsvDateFormat := [], QifDateFormat := [] } v]
        | none => []) = _
      cases hv : index row conf.CsvColumnDate with
      | none => rfl
      | some v =>
        have hl : dateText L { conf with CsvDateFormat := [], QifDateFormat := [] } v = v := by
          simp [dateText]
        by_cases hne : v = []
        · simp [hne]
        · simp only [hne, if_false, hl, hdt v hv hne]
    have hf : fieldLines L { conf with CsvDateFormat := [], QifDateFormat := [] } row
        = fieldLines L conf row := by
      unfold fieldLines
      rw [hd]
      rfl
    unfold recordLines
    rw [hf]
  · intro v hv hne
    obtain ⟨rest, hrest⟩ := recordLines_of_date (L := L) hv hne
    rw [hdt v hv hne] at hrest
    exact ⟨rest, by rw [mapRow_eq, hrest]⟩

/-- Witness for C14: a library whose parser always fails. -/
theorem date_parse_failure_falls_back_witness :
    (∃ lines,
      mapRow GoLib.plain
        { Config.blank with CsvColumnDate := 0, CsvColumnMemo := 1,
                            CsvDateFormat := "DD/MM".toList, QifDateFormat := "MM/DD".toList }
        ["5 Jan".toList, "rent".toList] = some lines
      ∧ mapRow GoLib.plain
        { Config.blank with CsvColumnDate := 0, CsvColumnMemo := 1,
                            CsvDateFormat := [], QifDateFormat := [] }
        ["5 Jan".toList, "rent".toList] = some lines)
    ∧ ∀ v, index ["5 Jan".toList, "rent".toList] 0 = some v → v ≠ [] →
        ∃ rest, mapRow GoLib.plain
          { Config.blank with CsvColumnDate := 0, CsvColumnMemo := 1,
                              CsvDateFormat := "DD/MM".toList, QifDateFormat := "MM/DD".toList }
          ["5 Jan".toList, "rent".toList] = some (('D' :: v) :: rest) :=
  date_parse_failure_falls_back GoLib.plain
    { Config.blank with CsvColumnDate := 0, CsvColumnMemo := 1,
                        CsvDateFormat := "DD/MM".toList, QifDateFormat := "MM/DD".toList }
    ["5 Jan".toList, "rent".toList] (by decide) (by decide) (fun _ _ _ => rfl)

/-- C16. With Date in column 0, Amount in column 1, every other column -1,
both date patterns empty and no sign reversal, the row `2023-01-05`, `-12.50`
gives exactly `D2023-01-05`, `T-12.50`, `^`; and every row of two non-empty
cells `d`, `a` gives exactly `D` with `d`, `T` with `formatAmount (trim a)`,
and `^`. -/
theorem scenario_date_amount (L : GoLib) (conf : Config) :
    mapRow L
        { conf.init with CsvColumnDate := 0, CsvColumnAmount := 1, CsvDateFormat := [],
                         QifDateFormat := [], CsvReverseAmountSign := false }
        ["2023-01-05".toList, "-12.50".toList]
      = some ["D2023-01-05".toList, "T-12.50".toList, "^".toList]
    ∧ ∀ d a : GoString, d ≠ [] → a ≠ [] →
        mapRow L
          { conf.init with CsvColumnDate := 0, CsvColumnAmount := 1, CsvDateFormat := [],
                           QifDateFormat := [], CsvReverseAmountSign := false }
          [d, a]
        = some ['D' :: d, 'T' :: formatAmount (TrimSpace a), "^".toList] := by
  have general : ∀ d a : GoString, d ≠ [] → a ≠ [] →
      mapRow L
        { conf.init with CsvColumnDate := 0, CsvColumnAmount := 1, CsvDateFormat := [],
                         QifDateFormat := [], CsvReverseAmountSign := false }
        [d, a]
      = some ['D' :: d, 'T' :: formatAmount (TrimSpace a), "^".toList] := by
    intro d a hd ha
    rw [mapRow_eq]
    have hneg : index [d, a] (-1) = none := index_out_of_range (by simp)
    have h0 : index [d, a] 0 = some d := rfl
    have h1 : index [d, a] 1 = some a := rfl
    have hf : fieldLines L
        { conf.init with CsvColumnDate := 0, CsvColumnAmount := 1, CsvDateFormat := [],
                         QifDateFormat := [], CsvReverseAmountSign := false } [d, a]
        = ['D' :: d, 'T' :: formatAmount (TrimSpace a)] := by
      simp [fieldLines, dateLines, amountLines, plainLines, Config.init, dateText,
        signReversed_false, hneg, h0, h1, hd, ha]
    simp [recordLines, hf]
  refine ⟨?_, general⟩
  have h := general "2023-01-05".toList "-12.50".toList (by decide) (by decide)
  have hfa : formatAmount (TrimSpace "-12.50".toList) = "-12.50".toList := by decide
  rw [hfa] at h
  exact h

/-- Witness for C16: the row ` 3 May `, `USD 1,5`. -/
theorem scenario_date_amount_witness :
    mapRow GoLib.plain
        { Config.blank.init with CsvColumnDate := 0, CsvColumnAmount := 1, CsvDateFormat := [],
                                 QifDateFormat := [], CsvReverseAmountSign := false }
        [" 3 May ".toList, "USD 1,5".toList]
      = some ['D' :: " 3 May ".toList, 'T' :: formatAmount (TrimSpace "USD 1,5".toList),
              "^".toList] :=
  (scenario_date_amount GoLib.plain Config.blank).2 " 3 May ".toList "USD 1,5".toList
    (by decide) (by decide)

/-- C18. An Amount cell that is not empty but holds no ASCII digit and no `-`
normalises to the empty string, and the line written for the Amount field is
the bare `T`, with sign reversal or without; the record ends with `^`. -/
theorem amount_line_empty_value (L : GoLib) (conf : Config) (row : List GoString)
    (v : GoString) (hcell : index row conf.CsvColumnAmount = some v) (hne : v ≠ [])
    (hno : ∀ c ∈ v, isDigit c = false ∧ c ≠ '-') :
    formatAmount (TrimSpace v) = []
    ∧ ∃ lines, mapRow L conf row = some lines
        ∧ linesWithCode 'T' lines = ["T".toList]
        ∧ lines.getLast? = some "^".toList := by
  have hfa : formatAmount (TrimSpace v) = [] := by
    rw [formatAmount_eq_keep]
    exact keep_false_eq_nil _ (fun c hc => hno c (mem_of_mem_TrimSpace hc))
  refine ⟨hfa, _, mapRow_eq L conf row, ?_, ?_⟩
  · rw [linesWithCode_T, amountLines_of_cell hcell hne, hfa, signReversed_nil]
    rfl
  · apply recordLines_getLast
    intro hnil
    have hpop : populated row conf.CsvColumnAmount :=
      (populated_iff row _).2 ⟨v, hcell, hne⟩
    exact (fieldLines_eq_nil_iff L conf row).1 hnil _ (by simp [columns]) hpop

/-- Witness for C18: the cell `$` with sign reversal enabled. -/
theorem amount_line_empty_value_witness :
    formatAmount (TrimSpace "$".toList) = []
    ∧ ∃ lines,
        mapRow GoLib.plain
          { Config.blank with CsvColumnAmount := 0, CsvReverseAmountSign := true }
          ["$".toList] = some lines
        ∧ linesWithCode 'T' lines = ["T".toList]
        ∧ lines.getLast? = some "^".toList :=
  amount_line_empty_value GoLib.plain
    { Config.blank with CsvColumnAmount := 0, CsvReverseAmountSign := true }
    ["$".toList] "$".toList (by decide) (by decide) (by decide)

/-- C19. The row step never reads outside the row.  For every row, the empty
one included, and arbitrary integer column indices: the guard, each field
statement and the sign-reversal step never panic, so the step returns; the
empty row writes nothing; and a field whose index is negative or not below
the length of the row writes no line. -/
theorem mapRow_never_out_of_range (L : GoLib) (conf : Config) (row : List GoString) :
    (∀ col : Int, columnHasData row col ≠ none)
    ∧ (∀ (reverse : Bool) (s : GoString), reverseAmountSign reverse s ≠ none)
    ∧ (∀ (st : RowState) (code : Char) (col : Int),
        dateField L conf row st ≠ none ∧ amountField code col conf row st ≠ none
        ∧ plainField code col row st ≠ none)
    ∧ (∃ lines, mapRow L conf row = some lines
        ∧ ∀ p ∈ fieldTable conf, ¬ (0 ≤ p.2 ∧ p.2 < (row.length : Int)) →
            linesWithCode p.1 lines = [])
    ∧ mapRow L conf [] = some [] := by
  refine ⟨?_, ?_, ?_, ?_, ?_⟩
  · intro col
    rw [columnHasData_eq]
    simp
  · intro reverse s
    rw [reverseAmountSign_eq]
    simp
  · intro st code col
    rw [dateField_eq, amountField_eq, plainField_eq]
    simp
  · exact ⟨_, mapRow_eq L conf row,
      fun p hp h => linesWithCode_out_of_range L conf row p hp h⟩
  · rw [mapRow_eq, (recordLines_eq_nil_iff L conf []).2]
    intro col _ h
    have h1 := h.1
    have h2 := h.2.1
    simp at h2
    omega

/-- C20. A well-formed numeral, an optional `-`, one ASCII digit, then any
digits, commas and periods, is a fixed point of `formatAmount`; so without
sign reversal an Amount cell holding it is written unchanged after `T`. -/
theorem formatAmount_numeral_fixed (neg : Bool) (d : Char) (t : GoString)
    (hd : isDigit d = true) (ht : ∀ c ∈ t, isDigit c = true ∨ c = ',' ∨ c = '.') :
    formatAmount ((if neg then "-".toList else []) ++ d :: t)
      = (if neg then "-".toList else []) ++ d :: t
    ∧ ∀ (L : GoLib) (conf : Config) (row : List GoString),
        conf.CsvReverseAmountSign = false →
        index row conf.CsvColumnAmount = some ((if neg then "-".toList else []) ++ d :: t) →
        ∃ lines, mapRow L conf row = some lines
          ∧ linesWithCode 'T' lines = ['T' :: ((if neg then "-".toList else []) ++ d :: t)] := by
  have ht2 : ∀ c ∈ t, isTail c = true := by
    intro c hc
    rcases ht c hc with h | h | h <;> simp [isTail, h]
  have hfix : formatAmount ((if neg then ['-'] else []) ++ d :: t)
      = (if neg then ['-'] else []) ++ d :: t := by
    rw [formatAmount_eq_keep]
    exact keep_false_numeral neg d t hd ht2
  refine ⟨hfix, ?_⟩
  intro L conf row hrev hcell
  have hne : (if neg then ['-'] else []) ++ d :: t ≠ [] := by
    cases neg <;> simp
  refine ⟨_, mapRow_eq L conf row, ?_⟩
  rw [linesWithCode_T, amountLines_of_cell hcell hne, hrev, signReversed_false]
  have htrim := TrimSpace_numeral neg d t hd ht2
  have e1 : TrimSpace ((if neg then "-".toList else []) ++ d :: t)
      = (if neg then ['-'] else []) ++ d :: t := htrim
  rw [e1, hfix]
  rfl

/-- Witness for C20: the numeral `-1,234.50` in the Amount column. -/
theorem formatAmount_numeral_fixed_witness :
    formatAmount "-1,234.50".toList = "-1,234.50".toList
    ∧ ∃ lines,
        mapRow GoLib.plain { Config.blank with CsvColumnAmount := 0 } ["-1,234.50".toList]
          = some lines
        ∧ linesWithCode 'T' lines = ["T-1,234.50".toList] :=
  ⟨(formatAmount_numeral_fixed true '1' ",234.50".toList (by decide) (by decide)).1,
   (formatAmount_numeral_fixed true '1' ",234.50".toList (by decide) (by decide)).2
     GoLib.plain { Config.blank with CsvColumnAmount := 0 } ["-1,234.50".toList] rfl rfl⟩

/-! ## The text written for a row -/

theorem count_newline_rowText (items : List GoString) :
    (rowText items).count '\n' = items.length + (items.map (List.count '\n')).sum := by
  induction items with
  | nil => rfl
  | cons a t ih =>
    have : rowText (a :: t) = a ++ '\n' :: rowText t := by simp [rowText]
    rw [this]
    simp only [List.count_append, List.count_cons_self, ih, List.length_cons, List.map_cons,
      List.sum_cons]
    omega

theorem textLinesFrom_line (cur l rest : GoString) (h : '\n' ∉ l) :
    textLinesFrom cur (l ++ '\n' :: rest) = (cur ++ l) :: textLinesFrom [] rest := by
  induction l generalizing cur with
  | nil => simp [textLinesFrom]
  | cons c cs ih =>
    have hc : ¬ c = '\n' := fun e => h (by simp [e])
    have hcs : '\n' ∉ cs := fun e => h (List.mem_cons_of_mem _ e)
    simp [textLinesFrom, hc, ih (cur ++ [c]) hcs]

theorem textLines_rowText (items : List GoString) (h : ∀ l ∈ items, '\n' ∉ l) :
    textLines (rowText items) = items := by
  unfold textLines
  induction items with
  | nil => rfl
  | cons a t ih =>
    have e : rowText (a :: t) = a ++ '\n' :: rowText t := by simp [rowText]
    rw [e, textLinesFrom_line [] a _ (h a (List.mem_cons_self _ _)),
      ih (fun l hl => h l (List.mem_cons_of_mem _ hl))]
    rfl

theorem length_textLinesFrom (cur text : GoString) :
    (textLinesFrom cur text).length = text.count '\n' := by
  induction text generalizing cur with
  | nil => rfl
  | cons c cs ih =>
    by_cases hc : c = '\n'
    · subst hc
      simp [textLinesFrom, ih]
    · have hc2 : ¬ '\n' = c := fun e => hc e.symm
      simp [textLinesFrom, hc, ih, List.count_cons, hc2]

theorem sum_count_eq_zero_iff (items : List GoString) :
    (items.map (List.count '\n')).sum = 0 ↔ ∀ l ∈ items, '\n' ∉ l := by
  induction items with
  | nil => simp
  | cons a t ih =>
    simp only [List.map_cons, List.sum_cons, Nat.add_eq_zero, ih, List.mem_cons,
      forall_eq_or_imp, List.count_eq_zero]

theorem length_textLines_rowText_iff (items : List GoString) :
    (textLines (rowText items)).length = items.length ↔ ∀ l ∈ items, '\n' ∉ l := by
  unfold textLines
  rw [length_textLinesFrom, count_newline_rowText, ← sum_count_eq_zero_iff]
  omega

theorem textLines_rowText_iff (items : List GoString) :
    textLines (rowText items) = items ↔ ∀ l ∈ items, '\n' ∉ l :=
  ⟨fun h => (length_textLines_rowText_iff items).1 (by rw [h]), textLines_rowText items⟩

theorem length_of_shape {code : Char} {ls : List GoString} {P : Prop} [Decidable P]
    (hs : ls = [] ∨ ∃ v, ls = [code :: v]) (hn : ls = [] ↔ ¬ P) :
    ls.length = if P then 1 else 0 := by
  by_cases hp : P
  · rcases hs with h | ⟨v, h⟩
    · exact absurd hp (hn.1 h)
    · simp [h, hp]
  · simp [hn.2 hp, hp]

theorem length_fieldLines (L : GoLib) (conf : Config) (row : List GoString) :
    (fieldLines L conf row).length = populatedCount conf row := by
  unfold fieldLines populatedCount columns
  simp only [List.length_append,
    length_of_shape (dateLines_shape L conf row) (dateLines_eq_nil_iff L conf row),
    length_of_shape (plainLines_shape _ _ row) (plainLines_eq_nil_iff _ _ row),
    length_of_shape (amountLines_shape _ _ conf row) (amountLines_eq_nil_iff _ _ conf row),
    List.countP_cons, List.countP_nil, decide_eq_true_eq]
  omega

/-! ## The claim on the text of a row -/

/-- C15, as stated, fails: a Memo cell holding a line break is one item for
`Fprintln` but two lines of text, so a row with one populated field writes
three lines, not two. -/
theorem row_text_counterexample :
    populatedCount { Config.blank with CsvColumnMemo := 0 } ["a\nb".toList] = 1
    ∧ mapRow GoLib.plain { Config.blank with CsvColumnMemo := 0 } ["a\nb".toList]
        = some ["Ma\nb".toList, "^".toList]
    ∧ textLines (rowText ["Ma\nb".toList, "^".toList])
        = ["Ma".toList, "b".toList, "^".toList]
    ∧ (textLines (rowText ["Ma\nb".toList, "^".toList])).length ≠ 1 + 1 := by
  decide

/-- C15, amended. A row with `k >= 1` populated fields writes exactly `k + 1`
items, the `k` field lines (a code followed by a value) and then `^`, each
followed by a newline.  The text has one line per item, `k + 1` lines in all,
exactly when no written value contains a newline; in general it has `k + 1`
lines plus one for every newline inside a written value. -/
theorem row_text_lines (L : GoLib) (conf : Config) (row : List GoString)
    (hk : 1 ≤ populatedCount conf row) :
    ∃ fields : List GoString,
      mapRow L conf row = some (fields ++ ["^".toList])
      ∧ fields.length = populatedCount conf row
      ∧ (∀ l ∈ fields, ∃ code ∈ fieldCodes, ∃ v, l = code :: v)
      ∧ (textLines (rowText (fields ++ ["^".toList]))).length
          = populatedCount conf row + 1 + (fields.map (List.count '\n')).sum
      ∧ ((textLines (rowText (fields ++ ["^".toList]))).length = populatedCount conf row + 1
          ↔ ∀ l ∈ fields, '\n' ∉ l)
      ∧ (textLines (rowText (fields ++ ["^".toList])) = fields ++ ["^".toList]
          ↔ ∀ l ∈ fields, '\n' ∉ l) := by
  have hlen := length_fieldLines L conf row
  have hne : fieldLines L conf row ≠ [] := by
    intro h
    rw [h] at hlen
    simp at hlen
    omega
  have hall : (∀ l ∈ fieldLines L conf row ++ ["^".toList], '\n' ∉ l)
      ↔ ∀ l ∈ fieldLines L conf row, '\n' ∉ l := by
    constructor
    · intro h l hl
      exact h l (List.mem_append_left _ hl)
    · intro h l hl
      rcases List.mem_append.1 hl with h1 | h1
      · exact h l h1
      · have : l = "^".toList := by simpa using h1
        subst this
        decide
  have hcount : (textLines (rowText (fieldLines L conf row ++ ["^".toList]))).length
      = populatedCount conf row + 1 + ((fieldLines L conf row).map (List.count '\n')).sum := by
    unfold textLines
    rw [length_textLinesFrom, count_newline_rowText]
    have h0 : List.count '\n' "^".toList = 0 := by decide
    simp only [List.length_append, List.map_append, List.sum_append, List.length_singleton,
      List.map_cons, List.map_nil, List.sum_cons, List.sum_nil, hlen, h0, Nat.add_zero]
  refine ⟨fieldLines L conf row, ?_, hlen, fieldLines_mem L conf row, hcount, ?_, ?_⟩
  · rw [mapRow_eq]
    simp [recordLines, hne]
  · rw [hcount, ← sum_count_eq_zero_iff]
    omega
  · rw [textLines_rowText_iff, hall]

/-- Witness for C15: a row with a date and a memo, no line break in them. -/
theorem row_text_lines_witness :
    ∃ fields : List GoString,
      mapRow GoLib.plain { Config.blank with CsvColumnDate := 0, CsvColumnMemo := 1 }
          ["3 May".toList, "rent".toList] = some (fields ++ ["^".toList])
      ∧ fields.length
          = populatedCount { Config.blank with CsvColumnDate := 0, CsvColumnMemo := 1 }
              ["3 May".toList, "rent".toList]
      ∧ (∀ l ∈ fields, ∃ code ∈ fieldCodes, ∃ v, l = code :: v)
      ∧ (textLines (rowText (fields ++ ["^".toList]))).length
          = populatedCount { Config.blank with CsvColumnDate := 0, CsvColumnMemo := 1 }
              ["3 May".toList, "rent".toList] + 1 + (fields.map (List.count '\n')).sum
      ∧ ((textLines (rowText (fields ++ ["^".toList]))).length
            = populatedCount { Config.blank with CsvColumnDate := 0, CsvColumnMemo := 1 }
                ["3 May".toList, "rent".toList] + 1
          ↔ ∀ l ∈ fields, '\n' ∉ l)
      ∧ (textLines (rowText (fields ++ ["^".toList])) = fields ++ ["^".toList]
          ↔ ∀ l ∈ fields, '\n' ∉ l) :=
  row_text_lines GoLib.plain { Config.blank with CsvColumnDate := 0, CsvColumnMemo := 1 }
    ["3 May".toList, "rent".toList] (by decide)

/-! ## The date letters among the ASCII runes -/

theorem toUpperRune_ascii (tbl : Char → Char) (c : Char) (h : c.toNat ≤ 0x7F) :
    toUpperRune tbl c = toUpperRune id c := by
  simp [toUpperRune, h]

theorem dateLetter_table :
    ∀ n : Fin 128, dateLetter id (Char.ofNat n) = decide (Char.ofNat n ∈ "dDmMyY".toList) := by
  decide

/-- On ASCII the date letters are `d`, `D`, `m`, `M`, `y`, `Y`, whatever the
table says above ASCII. -/
theorem dateLetter_ascii (tbl : Char → Char) (c : Char) (h : c.toNat ≤ 0x7F) :
    dateLetter tbl c = true ↔ c ∈ "dDmMyY".toList := by
  have h1 : dateLetter tbl c = dateLetter id c := by
    simp [dateLetter, toUpperRune_ascii tbl c h]
  have h2 := dateLetter_table ⟨c.toNat, by omega⟩
  have h3 : Char.ofNat c.toNat = c := Char.ofNat_toNat c
  simp only [h3] at h2
  rw [h1, h2]
  simp

end Csv2Qif
